import Mathlib

/-!
Verification development for the flenco-node-backend-cli code generator.

The repository's core is string-based: regex-style introspection of a Prisma
schema, template rendering of route/controller/service/validation modules, and
line-classification maintenance of the aggregate route registry
(`src/routes/index.ts`).  This file gives a shallow embedding of those
functions over `List Char` (file contents) and proves or refutes the frozen
specification claims about them.  Every definition is translated from the
TypeScript source; file reads are modelled by passing the read result
(`Option String`) explicitly, and the refresh workflow's filesystem is an
explicit association list from path to content.
-/

set_option maxRecDepth 40000

/-! ## Character classes and basic string machinery

`isWsChar` is the ASCII part of JavaScript's `\s`, `isWordChar` is `\w`;
`isLowerWordChar` is the subset of `\w` with no upper-case letters (the shape
of the generator's lowercased file stems). -/

def isWsChar (c : Char) : Bool :=
  c = ' ' || c = '\t' || c = '\n' || c = '\r' || c = '\x0b' || c = '\x0c'

def isWordChar (c : Char) : Bool :=
  ('a' ≤ c && c ≤ 'z') || ('A' ≤ c && c ≤ 'Z') || ('0' ≤ c && c ≤ '9') || c = '_'

def isLowerWordChar (c : Char) : Bool :=
  ('a' ≤ c && c ≤ 'z') || ('0' ≤ c && c ≤ '9') || c = '_'

/-- Shorthand: the character list of a string literal. -/
def s2l (s : String) : List Char := s.data

/-- JavaScript `String.prototype.includes`: `pat` occurs contiguously in `l`. -/
def containsL : List Char → List Char → Bool
  | [], pat => pat.isEmpty
  | c :: r, pat => pat.isPrefixOf (c :: r) || containsL r pat

theorem containsL_iff (l pat : List Char) : containsL l pat = true ↔ pat <:+: l := by
  induction l with
  | nil =>
    simp [containsL, List.isEmpty_iff, List.infix_nil]
  | cons c r ih =>
    simp only [containsL, Bool.or_eq_true, List.isPrefixOf_iff_prefix, ih,
      List.infix_cons_iff]

theorem containsL_eq_false_iff (l pat : List Char) :
    containsL l pat = false ↔ ¬ pat <:+: l := by
  rw [← containsL_iff]
  cases containsL l pat <;> simp

theorem not_infix_of_missing_char {c : Char} {pat l : List Char}
    (hc : c ∈ pat) (hl : c ∉ l) : ¬ pat <:+: l := by
  intro h
  exact hl (h.subset hc)

/-- Aligning two decompositions of a list at a character that occurs in
neither prefix: the decompositions coincide. -/
theorem uniq_align {c : Char} {l₁ r₁ l₂ r₂ : List Char}
    (h : l₁ ++ c :: r₁ = l₂ ++ c :: r₂) (h₁ : c ∉ l₁) (h₂ : c ∉ l₂) :
    l₁ = l₂ ∧ r₁ = r₂ := by
  induction l₁ generalizing l₂ with
  | nil =>
    cases l₂ with
    | nil => simpa using h
    | cons d l₂' =>
      simp only [List.nil_append, List.cons_append, List.cons.injEq] at h
      exact absurd (h.1 ▸ List.mem_cons_self d l₂') (by simpa [h.1] using h₂)
  | cons d l₁' ih =>
    cases l₂ with
    | nil =>
      simp only [List.cons_append, List.nil_append, List.cons.injEq] at h
      exact absurd (h.1 ▸ List.mem_cons_self d l₁') (by simpa [h.1] using h₁)
    | cons e l₂' =>
      simp only [List.cons_append, List.cons.injEq] at h
      have := ih (h.2) (fun hm => h₁ (List.mem_cons_of_mem d hm))
        (fun hm => h₂ (h.1 ▸ List.mem_cons_of_mem e hm))
      exact ⟨by rw [h.1, this.1], this.2⟩

/-- Aligning at a character that occurs in neither suffix. -/
theorem uniq_align_last {c : Char} {l₁ r₁ l₂ r₂ : List Char}
    (h : l₁ ++ c :: r₁ = l₂ ++ c :: r₂) (h₁ : c ∉ r₁) (h₂ : c ∉ r₂) :
    l₁ = l₂ ∧ r₁ = r₂ := by
  have hrev : r₁.reverse ++ c :: l₁.reverse = r₂.reverse ++ c :: l₂.reverse := by
    have := congrArg List.reverse h
    simpa [List.reverse_append] using this
  have := uniq_align hrev (by simpa using h₁) (by simpa using h₂)
  constructor
  · have := this.2
    simpa using congrArg List.reverse this
  · have := this.1
    simpa using congrArg List.reverse this

/-- A match of `pat₁ ++ c :: pat₂` inside `A ++ c :: B`, when `c` occurs in
none of the four side lists, must align its `c` with the unique `c` of the
haystack. -/
theorem infix_split_at_unique {c : Char} {pat₁ pat₂ A B : List Char}
    (hp₁ : c ∉ pat₁) (hp₂ : c ∉ pat₂) (hA : c ∉ A) (hB : c ∉ B)
    (h : (pat₁ ++ c :: pat₂) <:+: A ++ c :: B) :
    ∃ u v, A = u ++ pat₁ ∧ B = pat₂ ++ v := by
  obtain ⟨u, v, huv⟩ := h
  have hcount : (u ++ (pat₁ ++ c :: pat₂) ++ v).count c = (A ++ c :: B).count c := by
    rw [huv]
  simp [List.count_append, List.count_cons, List.count_eq_zero.2 hp₁,
    List.count_eq_zero.2 hp₂, List.count_eq_zero.2 hA, List.count_eq_zero.2 hB] at hcount
  have hu : c ∉ u := List.count_eq_zero.1 (by omega)
  have hv : c ∉ v := List.count_eq_zero.1 (by omega)
  have huv' : (u ++ pat₁) ++ c :: (pat₂ ++ v) = A ++ c :: B := by
    simpa [List.append_assoc] using huv
  have := uniq_align huv' (by
      intro hm
      rcases List.mem_append.1 hm with hm | hm
      · exact hu hm
      · exact hp₁ hm) hA
  exact ⟨u, v, this.1.symm, this.2.symm⟩

/-! ## Splitting on a separator character and joining lines

`splitOnCharL sep` mirrors JavaScript's `String.prototype.split(sep)`
(`"".split` gives `[""]`, a trailing separator yields a trailing empty part);
`splitNl`/`joinNl` specialise to newline, the registry code's line structure. -/

def splitOnCharL (sep : Char) : List Char → List (List Char)
  | [] => [[]]
  | c :: rest =>
    if c = sep then [] :: splitOnCharL sep rest
    else
      match splitOnCharL sep rest with
      | [] => [[c]]
      | h :: t => (c :: h) :: t

def splitNl : List Char → List (List Char) := splitOnCharL '\n'

def joinNl : List (List Char) → List Char
  | [] => []
  | [l] => l
  | l :: ls => l ++ '\n' :: joinNl ls

theorem splitOnCharL_ne_nil (sep : Char) (l : List Char) : splitOnCharL sep l ≠ [] := by
  induction l with
  | nil => simp [splitOnCharL]
  | cons c rest ih =>
    by_cases h : c = sep
    · simp [splitOnCharL, h]
    · simp only [splitOnCharL, if_neg h]
      match hr : splitOnCharL sep rest with
      | [] => simp
      | h' :: t => simp

theorem splitOnCharL_no_sep {sep : Char} {l : List Char} (h : sep ∉ l) :
    splitOnCharL sep l = [l] := by
  induction l with
  | nil => rfl
  | cons c rest ih =>
    have hc : ¬ c = sep := fun hc => h (hc ▸ List.mem_cons_self c rest)
    have hr : sep ∉ rest := fun hm => h (List.mem_cons_of_mem c hm)
    simp [splitOnCharL, hc, ih hr]

theorem splitOnCharL_append_sep {sep : Char} {a : List Char} (b : List Char)
    (h : sep ∉ a) : splitOnCharL sep (a ++ sep :: b) = a :: splitOnCharL sep b := by
  induction a with
  | nil => simp [splitOnCharL]
  | cons c rest ih =>
    have hc : ¬ c = sep := fun hc => h (hc ▸ List.mem_cons_self c rest)
    have hr : sep ∉ rest := fun hm => h (List.mem_cons_of_mem c hm)
    simp only [List.cons_append, splitOnCharL, if_neg hc, List.append_eq, ih hr]

theorem joinNl_singleton (l : List Char) : joinNl [l] = l := rfl

theorem joinNl_nil : joinNl [] = [] := rfl

theorem joinNl_cons_of_ne_nil {l : List Char} {ls : List (List Char)} (h : ls ≠ []) :
    joinNl (l :: ls) = l ++ '\n' :: joinNl ls := by
  match ls with
  | [] => exact absurd rfl h
  | m :: ls' => rfl

theorem splitNl_joinNl {ls : List (List Char)} (hne : ls ≠ [])
    (h : ∀ l ∈ ls, '\n' ∉ l) : splitNl (joinNl ls) = ls := by
  induction ls with
  | nil => exact absurd rfl hne
  | cons l ls ih =>
    cases ls with
    | nil =>
      rw [joinNl_singleton]
      exact splitOnCharL_no_sep (h l (List.mem_cons_self l []))
    | cons m ls' =>
      rw [joinNl_cons_of_ne_nil (by simp)]
      unfold splitNl
      rw [splitOnCharL_append_sep _ (h l (List.mem_cons_self l _))]
      have := ih (by simp) (fun x hx => h x (List.mem_cons_of_mem l hx))
      rw [show splitOnCharL '\n' (joinNl (m :: ls')) = splitNl (joinNl (m :: ls')) from rfl,
        this]

theorem mem_infix_joinNl {l : List Char} {ls : List (List Char)} (h : l ∈ ls) :
    l <:+: joinNl ls := by
  induction ls with
  | nil => cases h
  | cons m ls ih =>
    cases ls with
    | nil =>
      rcases List.mem_singleton.1 h with rfl
      rw [joinNl_singleton]
    | cons m' ls' =>
      rw [joinNl_cons_of_ne_nil (by simp)]
      rcases List.mem_cons.1 h with rfl | h
      · exact (List.prefix_append l _).isInfix
      · exact (ih h).trans ((List.suffix_cons '\n' _).isInfix.trans
          (List.suffix_append m _).isInfix)

theorem noNl_prefix_cut {p a b : List Char} (hp : '\n' ∉ p)
    (h : p <+: a ++ '\n' :: b) : p <+: a := by
  induction p generalizing a with
  | nil => exact List.nil_prefix
  | cons x p' ih =>
    cases a with
    | nil =>
      rcases List.cons_prefix_cons.1 h with ⟨heq, -⟩
      exact absurd (heq ▸ List.mem_cons_self x p') hp
    | cons y a' =>
      rcases List.cons_prefix_cons.1 h with ⟨heq, h'⟩
      exact List.cons_prefix_cons.2 ⟨heq, ih (fun hm => hp (List.mem_cons_of_mem _ hm)) h'⟩

theorem noNl_infix_append {p a b : List Char} (hp : '\n' ∉ p) :
    p <:+: a ++ '\n' :: b ↔ p <:+: a ∨ p <:+: b := by
  constructor
  · intro h
    induction a with
    | nil =>
      rcases List.infix_cons_iff.1 h with h | h
      · cases p with
        | nil => exact Or.inl List.nil_infix
        | cons x p' =>
          rcases List.cons_prefix_cons.1 h with ⟨heq, -⟩
          exact absurd (heq ▸ List.mem_cons_self x p') hp
      · exact Or.inr h
    | cons c a' ih =>
      rcases List.infix_cons_iff.1 h with h | h
      · cases p with
        | nil => exact Or.inl List.nil_infix
        | cons x p' =>
          rcases List.cons_prefix_cons.1 h with ⟨heq, h'⟩
          exact Or.inl ((List.cons_prefix_cons.2
            ⟨heq, noNl_prefix_cut (fun hm => hp (List.mem_cons_of_mem x hm)) h'⟩).isInfix)
      · rcases ih h with h | h
        · exact Or.inl (List.infix_cons h)
        · exact Or.inr h
  · intro h
    rcases h with h | h
    · exact h.trans (List.prefix_append a _).isInfix
    · exact h.trans ((List.suffix_cons '\n' b).isInfix.trans (List.suffix_append a _).isInfix)

theorem infix_joinNl_iff {p : List Char} {ls : List (List Char)} (hp : '\n' ∉ p)
    (hpe : p ≠ []) : p <:+: joinNl ls ↔ ∃ l ∈ ls, p <:+: l := by
  induction ls with
  | nil =>
    rw [joinNl_nil]
    simp [List.infix_nil, hpe]
  | cons m ls ih =>
    cases ls with
    | nil =>
      rw [joinNl_singleton]
      simp
    | cons m' ls' =>
      rw [joinNl_cons_of_ne_nil (by simp), noNl_infix_append hp, ih]
      constructor
      · rintro (h | ⟨l, hl, h⟩)
        · exact ⟨m, List.mem_cons_self m _, h⟩
        · exact ⟨l, List.mem_cons_of_mem m hl, h⟩
      · rintro ⟨l, hl, h⟩
        rcases List.mem_cons.1 hl with rfl | hl
        · exact Or.inl h
        · exact Or.inr ⟨l, hl, h⟩

theorem noNl_mem_splitOnCharL {sep : Char} {c : List Char} {l : List Char}
    (h : l ∈ splitOnCharL sep c) : sep ∉ l := by
  induction c generalizing l with
  | nil =>
    simp only [splitOnCharL, List.mem_singleton] at h
    simp [h]
  | cons x rest ih =>
    by_cases hx : x = sep
    · simp only [splitOnCharL, if_pos hx, List.mem_cons] at h
      rcases h with rfl | h
      · simp
      · exact ih h
    · simp only [splitOnCharL, if_neg hx] at h
      match hr : splitOnCharL sep rest with
      | [] => exact absurd hr (splitOnCharL_ne_nil sep rest)
      | hd :: tl =>
        rw [hr] at h
        rcases List.mem_cons.1 h with rfl | h
        · intro hm
          rcases List.mem_cons.1 hm with rfl | hm
          · exact hx rfl
          · exact ih (hr ▸ List.mem_cons_self hd tl) hm
        · exact ih (hr ▸ List.mem_cons_of_mem hd h)

/-! ## takeWhile / dropWhile over appends -/

theorem takeWhile_all_append {p : Char → Bool} {a : List Char}
    (ha : ∀ c ∈ a, p c = true) (b : List Char) :
    (a ++ b).takeWhile p = a ++ b.takeWhile p := by
  induction a with
  | nil => simp
  | cons c a' ih =>
    have hc := ha c (List.mem_cons_self c a')
    simp [List.takeWhile_cons, hc, ih (fun x hx => ha x (List.mem_cons_of_mem c hx))]

theorem dropWhile_all_append {p : Char → Bool} {a : List Char}
    (ha : ∀ c ∈ a, p c = true) (b : List Char) :
    (a ++ b).dropWhile p = b.dropWhile p := by
  induction a with
  | nil => simp
  | cons c a' ih =>
    have hc := ha c (List.mem_cons_self c a')
    simp [List.dropWhile_cons, hc, ih (fun x hx => ha x (List.mem_cons_of_mem c hx))]

theorem takeWhile_head_false {p : Char → Bool} {c : Char} (hc : p c = false)
    (r : List Char) : (c :: r).takeWhile p = [] := by
  simp [List.takeWhile_cons, hc]

theorem dropWhile_head_false {p : Char → Bool} {c : Char} (hc : p c = false)
    (r : List Char) : (c :: r).dropWhile p = c :: r := by
  simp [List.dropWhile_cons, hc]

theorem dropWhile_len_le (p : Char → Bool) (l : List Char) :
    (l.dropWhile p).length ≤ l.length := by
  induction l with
  | nil => simp
  | cons c r ih =>
    by_cases h : p c
    · simp only [List.dropWhile_cons, if_pos h]
      exact ih.trans (by simp)
    · simp [List.dropWhile_cons, if_neg h]

/-! ## Character-class facts -/

theorem isWsChar_cases {c : Char} (h : isWsChar c = true) :
    c = ' ' ∨ c = '\t' ∨ c = '\n' ∨ c = '\r' ∨ c = '\x0b' ∨ c = '\x0c' := by
  simpa [isWsChar, Bool.or_eq_true, decide_eq_true_eq, or_assoc] using h

theorem wordChar_not_ws {c : Char} (h : isWordChar c = true) : isWsChar c = false := by
  by_contra hne
  have hw : isWsChar c = true := by revert hne; cases isWsChar c <;> simp
  rcases isWsChar_cases hw with rfl | rfl | rfl | rfl | rfl | rfl <;>
    exact absurd h (by decide)

theorem lowerWordChar_isWord {c : Char} (h : isLowerWordChar c = true) :
    isWordChar c = true := by
  simp only [isLowerWordChar, Bool.or_eq_true, Bool.and_eq_true, decide_eq_true_eq] at h
  simp only [isWordChar, Bool.or_eq_true, Bool.and_eq_true, decide_eq_true_eq]
  tauto

theorem lowerWord_not_mem {c : Char} {x : List Char}
    (hx : ∀ d ∈ x, isLowerWordChar d = true) (hc : isLowerWordChar c = false) : c ∉ x := by
  intro hm
  rw [hx c hm] at hc
  cases hc

theorem word_not_mem {c : Char} {x : List Char}
    (hx : ∀ d ∈ x, isWordChar d = true) (hc : isWordChar c = false) : c ∉ x := by
  intro hm
  rw [hx c hm] at hc
  cases hc

/-! ## JavaScript `toLowerCase` (ASCII) -/

def toLowerChar (c : Char) : Char :=
  if 'A' ≤ c && c ≤ 'Z' then Char.ofNat (c.toNat + 32) else c

def toLowerStr (s : String) : String := String.mk (s.data.map toLowerChar)

theorem toLowerChar_of_lower {c : Char} (h : isLowerWordChar c = true) :
    toLowerChar c = c := by
  simp only [isLowerWordChar, Bool.or_eq_true, Bool.and_eq_true, decide_eq_true_eq] at h
  unfold toLowerChar
  rw [if_neg]
  simp only [Bool.and_eq_true, decide_eq_true_eq, not_and]
  intro h1 h2
  rcases h with (⟨ha, hz⟩ | ⟨h0, h9⟩) | rfl
  · exact absurd (le_trans ha h2) (by decide)
  · exact absurd (le_trans h1 h9) (by decide)
  · exact absurd h2 (by decide)

theorem toLowerStr_of_lower {s : String} (h : ∀ c ∈ s.data, isLowerWordChar c = true) :
    toLowerStr s = s := by
  unfold toLowerStr
  have : s.data.map toLowerChar = s.data := by
    rw [List.map_congr_left (fun c hc => toLowerChar_of_lower (h c hc))]
    simp
  rw [this]

/-! ## Schema Reader (`src/utils/schema.utils.ts`, `getTables` in
`src/commands/generate.ts`)

`tryHeaderAt` is the anchored form of the regex `model\s+(\w+)\s+{`: the
literal `model`, at least one whitespace, a maximal nonempty word run (the
captured name), at least one whitespace, then `{`.  Because `\s`, `\w` and
`{` are pairwise disjoint character classes, the regex's greedy matching with
backtracking is exactly this maximal-munch reading.  `scanModels` is the `/g`
scan: try each start position left to right, resuming after a match. -/

def tryHeaderAt (l : List Char) : Option (List Char × List Char) :=
  if (s2l "model").isPrefixOf l then
    let r0 := l.drop 5
    let r1 := r0.dropWhile isWsChar
    let w := r1.takeWhile isWordChar
    let r2 := r1.dropWhile isWordChar
    let r3 := r2.dropWhile isWsChar
    if (r0.takeWhile isWsChar).isEmpty || w.isEmpty || (r2.takeWhile isWsChar).isEmpty then
      none
    else
      match r3 with
      | '{' :: r4 => some (w, r4)
      | _ => none
  else none

theorem tryHeaderAt_some_decomp {l w rest : List Char}
    (h : tryHeaderAt l = some (w, rest)) :
    ∃ pre, l = pre ++ '{' :: rest ∧ ∀ c ∈ pre, isWsChar c = true ∨ isWordChar c = true := by
  unfold tryHeaderAt at h
  split at h
  case isTrue hpre =>
    simp only at h
    split at h
    · cases h
    case isFalse hemp =>
      split at h
      case h_1 r4 heq =>
        simp only [Option.some.injEq, Prod.mk.injEq] at h
        obtain ⟨rfl, rfl⟩ := h
        obtain ⟨t, ht⟩ := List.isPrefixOf_iff_prefix.1 hpre
        have hdrop : l.drop 5 = t := by
          rw [← ht]
          have : (s2l "model").length = 5 := by decide
          rw [← this, List.drop_left]
        refine ⟨s2l "model" ++ (l.drop 5).takeWhile isWsChar
          ++ ((l.drop 5).dropWhile isWsChar).takeWhile isWordChar
          ++ ((((l.drop 5).dropWhile isWsChar)).dropWhile isWordChar).takeWhile isWsChar,
          ?_, ?_⟩
        · conv_lhs => rw [← ht, ← hdrop]
          rw [← List.takeWhile_append_dropWhile (p := isWsChar) (l := l.drop 5)]
          conv_lhs =>
            rw [← List.takeWhile_append_dropWhile (p := isWordChar)
              (l := (l.drop 5).dropWhile isWsChar)]
          conv_lhs =>
            rw [← List.takeWhile_append_dropWhile (p := isWsChar)
              (l := ((l.drop 5).dropWhile isWsChar).dropWhile isWordChar)]
          rw [heq]
          simp [List.append_assoc]
        · intro c hc
          simp only [List.append_assoc, List.mem_append] at hc
          rcases hc with hc | hc | hc | hc
          · right
            have : ∀ d ∈ s2l "model", isWordChar d = true := by decide
            exact this c hc
          · exact Or.inl (List.mem_takeWhile_imp hc)
          · exact Or.inr (List.mem_takeWhile_imp hc)
          · exact Or.inl (List.mem_takeWhile_imp hc)
      case h_2 => cases h
  case isFalse => cases h

theorem tryHeaderAt_length {l w rest : List Char} (h : tryHeaderAt l = some (w, rest)) :
    rest.length < l.length := by
  obtain ⟨pre, hpre, -⟩ := tryHeaderAt_some_decomp h
  rw [hpre]
  simp
  omega

/-- The global scan of `schemaContent.match(/model\\s+(\\w+)\\s+{/g)`, each match
reported through `.split(/\\s+/)[1]`, i.e. as the captured name.  Structural
recursion on a fuel bounded by the text length (the scan consumes at least one
character per step). -/
def scanModelsF (fuel : Nat) (l : List Char) : List (List Char) :=
  match fuel with
  | 0 => []
  | fuel + 1 =>
    match l with
    | [] => []
    | c :: cs =>
      match tryHeaderAt (c :: cs) with
      | some (w, rest) => w :: scanModelsF fuel rest
      | none => scanModelsF fuel cs

def scanModels (l : List Char) : List (List Char) := scanModelsF l.length l

theorem scanModelsF_congr : ∀ {f1 f2 : Nat} {l : List Char},
    l.length ≤ f1 → l.length ≤ f2 → scanModelsF f1 l = scanModelsF f2 l := by
  intro f1
  induction f1 with
  | zero =>
    intro f2 l h1 h2
    have : l = [] := List.length_eq_zero.1 (by omega)
    subst this
    cases f2 <;> rfl
  | succ f1 ih =>
    intro f2 l h1 h2
    cases l with
    | nil => cases f2 <;> rfl
    | cons c cs =>
      cases f2 with
      | zero => simp at h2
      | succ f2 =>
        simp only [scanModelsF]
        cases ht : tryHeaderAt (c :: cs) with
        | none =>
          simp only [List.length_cons] at h1 h2
          exact ih (by omega) (by omega)
        | some pair =>
          obtain ⟨w, rest⟩ := pair
          have hlt := tryHeaderAt_length ht
          simp only [List.length_cons] at h1 h2 hlt
          show w :: scanModelsF f1 rest = w :: scanModelsF f2 rest
          rw [@ih f2 rest (by omega) (by omega)]

theorem scanModels_nil : scanModels [] = [] := rfl

theorem scanModels_pos {l w rest : List Char} (h : tryHeaderAt l = some (w, rest)) :
    scanModels l = w :: scanModels rest := by
  match l with
  | [] =>
    exact absurd h (by rw [show tryHeaderAt [] = none from rfl]; simp)
  | c :: cs =>
    have hlt := tryHeaderAt_length h
    simp only [List.length_cons] at hlt
    show scanModelsF (cs.length + 1) (c :: cs) = _
    simp only [scanModelsF, h]
    rw [@scanModelsF_congr cs.length rest.length rest (by omega) le_rfl]
    rfl

theorem scanModels_neg {c : Char} {cs : List Char} (h : tryHeaderAt (c :: cs) = none) :
    scanModels (c :: cs) = scanModels cs := by
  show scanModelsF (cs.length + 1) (c :: cs) = _
  simp only [scanModelsF, h]
  rfl

theorem tryHeaderAt_mem_lbrace {l w rest : List Char} (h : tryHeaderAt l = some (w, rest)) :
    '{' ∈ l := by
  obtain ⟨pre, hpre, -⟩ := tryHeaderAt_some_decomp h
  rw [hpre]
  simp

theorem scanModels_no_lbrace {l : List Char} (h : '{' ∉ l) : scanModels l = [] := by
  generalize hn : l.length = n
  induction n generalizing l with
  | zero =>
    match l with
    | [] => exact scanModels_nil
  | succ n ih =>
    match l with
    | c :: cs =>
      match ht : tryHeaderAt (c :: cs) with
      | some (w, rest) => exact absurd (tryHeaderAt_mem_lbrace ht) h
      | none =>
        rw [scanModels_neg ht]
        exact ih (fun hm => h (List.mem_cons_of_mem c hm)) (by simpa using hn)

/-- A would-be header match cannot cross a closing brace: between the literal
`model` and the final `{` the pattern accepts only `\s` and `\w` characters. -/
theorem tryHeaderAt_blocked {a b : List Char} (ha : '{' ∉ a) :
    tryHeaderAt (a ++ '}' :: b) = none := by
  match ht : tryHeaderAt (a ++ '}' :: b) with
  | none => rfl
  | some (w, rest) =>
    exfalso
    obtain ⟨pre, hpre, hclean⟩ := tryHeaderAt_some_decomp ht
    rcases List.append_eq_append_iff.1 hpre with ⟨t, ht₁, ht₂⟩ | ⟨t, ht₁, ht₂⟩
    · match t with
      | [] =>
        rw [List.nil_append] at ht₂
        injection ht₂ with h1 _
        exact absurd h1 (by decide)
      | x :: t2 =>
        rw [List.cons_append] at ht₂
        injection ht₂ with h1 _
        subst h1
        have hmem : ('}' : Char) ∈ pre := by rw [ht₁]; simp
        rcases hclean _ hmem with hw | hw <;> exact absurd hw (by decide)
    · match t with
      | [] =>
        rw [List.nil_append] at ht₂
        injection ht₂ with h1 _
        exact absurd h1 (by decide)
      | x :: t2 =>
        rw [List.cons_append] at ht₂
        injection ht₂ with h1 _
        subst h1
        exact ha (by rw [ht₁]; simp)

theorem tryHeaderAt_head {c : Char} (cs : List Char) (h : c ≠ 'm') :
    tryHeaderAt (c :: cs) = none := by
  unfold tryHeaderAt
  rw [if_neg]
  intro hpre
  obtain ⟨t, ht⟩ := List.isPrefixOf_iff_prefix.1 hpre
  rw [show s2l "model" = 'm' :: s2l "odel" from rfl, List.cons_append] at ht
  injection ht with h1 _
  exact h h1.symm

/-- Splitting a suffix of `a ++ b`. -/
theorem suffix_append_cases {s a b : List Char} (h : s <:+ a ++ b) :
    s <:+ b ∨ ∃ a', a' <:+ a ∧ a' ≠ [] ∧ s = a' ++ b := by
  obtain ⟨t, ht⟩ := h
  rcases List.append_eq_append_iff.1 ht with ⟨u, hu₁, hu₂⟩ | ⟨u, hu₁, hu₂⟩
  · match u with
    | [] =>
      simp at hu₂
      exact Or.inl (hu₂ ▸ List.suffix_refl b)
    | x :: u' =>
      exact Or.inr ⟨x :: u', ⟨t, hu₁.symm⟩, by simp, hu₂⟩
  · exact Or.inl ⟨u, hu₂.symm⟩

/-- Scanning skips over a stretch in which no match can start. -/
theorem scanModels_skip {junk tl : List Char}
    (h : ∀ s, s <:+ junk → s ≠ [] → tryHeaderAt (s ++ tl) = none) :
    scanModels (junk ++ tl) = scanModels tl := by
  induction junk with
  | nil => simp
  | cons c j ih =>
    have hc := h (c :: j) (List.suffix_refl _) (by simp)
    rw [List.cons_append, scanModels_neg (by simpa using hc)]
    exact ih (fun s hs hne => h s (hs.trans (List.suffix_cons c j)) hne)

/-- At a genuine block header `model NAME {`, the scan matches and captures
exactly `NAME`. -/
theorem tryHeaderAt_header {name tl : List Char} (hne : name ≠ [])
    (hw : ∀ c ∈ name, isWordChar c = true) :
    tryHeaderAt (s2l "model " ++ name ++ ' ' :: '{' :: tl) = some (name, tl) := by
  have hsplit : s2l "model " ++ name ++ ' ' :: '{' :: tl
      = s2l "model" ++ (' ' :: (name ++ ' ' :: '{' :: tl)) := by
    simp [s2l]
  unfold tryHeaderAt
  rw [if_pos (by
    rw [hsplit]
    exact List.isPrefixOf_iff_prefix.2 (List.prefix_append ..))]
  have hdrop : (s2l "model " ++ name ++ ' ' :: '{' :: tl).drop 5
      = ' ' :: (name ++ ' ' :: '{' :: tl) := by
    rw [hsplit]
    have h5 : (s2l "model").length = 5 := by decide
    rw [← h5, List.drop_left]
  simp only [hdrop]
  have hws : isWsChar ' ' = true := by decide
  match hname : name with
  | n0 :: nr =>
    have hn0 : isWordChar n0 = true := hw n0 (by simp)
    have htw : List.takeWhile isWsChar (' ' :: (n0 :: nr ++ ' ' :: '{' :: tl))
        = ' ' :: List.takeWhile isWsChar (n0 :: nr ++ ' ' :: '{' :: tl) := by
      simp [List.takeWhile_cons, hws]
    have htw2 : List.takeWhile isWsChar (n0 :: nr ++ ' ' :: '{' :: tl) = [] :=
      takeWhile_head_false (wordChar_not_ws hn0) _
    have hdw : List.dropWhile isWsChar (' ' :: (n0 :: nr ++ ' ' :: '{' :: tl))
        = n0 :: nr ++ ' ' :: '{' :: tl := by
      simp [List.dropWhile_cons, hws, dropWhile_head_false (wordChar_not_ws hn0)]
    have hwordtake : List.takeWhile isWordChar (n0 :: nr ++ ' ' :: '{' :: tl)
        = n0 :: nr := by
      have := takeWhile_all_append (p := isWordChar)
        (a := n0 :: nr) (fun c hc => hw c (hname ▸ hc)) (' ' :: '{' :: tl)
      rw [this, takeWhile_head_false (by decide) _, List.append_nil]
    have hworddrop : List.dropWhile isWordChar (n0 :: nr ++ ' ' :: '{' :: tl)
        = ' ' :: '{' :: tl := by
      have := dropWhile_all_append (p := isWordChar)
        (a := n0 :: nr) (fun c hc => hw c (hname ▸ hc)) (' ' :: '{' :: tl)
      rw [this, dropWhile_head_false (by decide) _]
    simp only [htw, htw2, hdw, hwordtake, hworddrop]
    rw [if_neg (by simp [List.takeWhile_cons, hws])]
    simp [List.takeWhile_cons, List.dropWhile_cons, hws,
      show isWsChar '{' = false from by decide]

/-! ## Well-formed schema texts (for the model-enumeration claim)

`modelDecl name body` renders one `model <name> { <body> }` block; `mkSchema`
joins blocks with single newlines, the shape produced by Prisma introspection.
The body is arbitrary text without `{`. -/

def modelDecl (name body : String) : String :=
  "model " ++ name ++ " \x7b" ++ body ++ "\x7d"

def mkSchema : List (String × String) → String
  | [] => ""
  | [m] => modelDecl m.1 m.2
  | m :: ms => modelDecl m.1 m.2 ++ "\n" ++ mkSchema ms

/-- After matching one block header the scan resumes inside the body. -/
theorem scanModels_block (name body tl : List Char) (hne : name ≠ [])
    (hw : ∀ c ∈ name, isWordChar c = true) :
    scanModels (s2l "model " ++ name ++ ' ' :: '{' :: (body ++ '}' :: tl))
      = name :: scanModels (body ++ '}' :: tl) := by
  exact scanModels_pos (tryHeaderAt_header hne hw)

theorem scanModels_after_body {body tl : List Char} (hb : '{' ∉ body) :
    scanModels (body ++ '}' :: '\n' :: tl) = scanModels tl := by
  have heq : body ++ '}' :: '\n' :: tl = (body ++ ['}', '\n']) ++ tl := by simp
  rw [heq]
  apply scanModels_skip
  intro s hs hne
  rcases suffix_append_cases hs with hs2 | ⟨a2, ha2, hane, rfl⟩
  · obtain ⟨t, ht⟩ := hs2
    match s, hne with
    | [], hne => exact absurd rfl hne
    | [c], _ =>
      have hc : c = '\n' := by
        have hlast := congrArg List.getLast? ht
        rw [List.getLast?_append] at hlast
        simpa using hlast
      rw [hc, List.cons_append, List.nil_append]
      exact tryHeaderAt_head _ (by decide)
    | c :: d :: s2, _ =>
      have hlen := congrArg List.length ht
      simp at hlen
      have ht0 : t = [] := List.length_eq_zero.1 (by omega)
      have hs0 : s2 = [] := List.length_eq_zero.1 (by omega)
      subst ht0
      subst hs0
      rw [List.nil_append] at ht
      injection ht with h1 h2
      injection h2 with h2 _
      subst h1
      subst h2
      rw [List.cons_append]
      exact tryHeaderAt_head _ (by decide)
  · have h2sub : '{' ∉ a2 := fun hm => hb (ha2.subset hm)
    have heq2 : (a2 ++ ['}', '\n']) ++ tl = a2 ++ '}' :: ('\n' :: tl) := by simp
    rw [heq2]
    exact tryHeaderAt_blocked h2sub

theorem scanModels_last_body {body : List Char} (hb : '{' ∉ body) :
    scanModels (body ++ ['}']) = [] := by
  apply scanModels_no_lbrace
  intro hm
  rcases List.mem_append.1 hm with hm | hm
  · exact hb hm
  · simp at hm

/-- Conditions for a well-formed model list: nonempty word-character names and
bodies free of `{`. -/
def WellFormedModels (ms : List (String × String)) : Prop :=
  ∀ m ∈ ms, m.1.data ≠ [] ∧ (∀ c ∈ m.1.data, isWordChar c = true) ∧ '{' ∉ m.2.data

theorem modelDecl_data (name body : String) :
    (modelDecl name body).data
      = s2l "model " ++ name.data ++ ' ' :: '{' :: (body.data ++ ['}']) := by
  simp [modelDecl, s2l]

theorem scanModels_mkSchema {ms : List (String × String)} (h : WellFormedModels ms) :
    scanModels (mkSchema ms).data = ms.map (fun m => m.1.data) := by
  induction ms with
  | nil => simpa [mkSchema] using scanModels_nil
  | cons m ms ih =>
    obtain ⟨hne, hw, hb⟩ := h m (List.mem_cons_self m ms)
    have ih' := ih (fun x hx => h x (List.mem_cons_of_mem m hx))
    cases ms with
    | nil =>
      show scanModels (modelDecl m.1 m.2).data = [m.1.data]
      rw [modelDecl_data, scanModels_block _ _ _ hne hw, scanModels_last_body hb]
    | cons m' ms' =>
      show scanModels (modelDecl m.1 m.2 ++ "\n" ++ mkSchema (m' :: ms')).data = _
      have hdata : (modelDecl m.1 m.2 ++ "\n" ++ mkSchema (m' :: ms')).data
          = s2l "model " ++ m.1.data ++ ' ' :: '{'
            :: (m.2.data ++ '}' :: '\n' :: (mkSchema (m' :: ms')).data) := by
        simp [modelDecl, s2l]
      rw [hdata, scanModels_pos (tryHeaderAt_header hne hw), scanModels_after_body hb, ih']
      rfl

/-! ## `getTables` (`src/commands/generate.ts`)

Reads `prisma/schema.prisma` (modelled as the read result), scans for
`model\s+(\w+)\s+{` and reports each match's name.  If the read fails, OR the
scan finds nothing (the inner `throw new Error('No tables found …')`), the
surrounding `catch` logs and rethrows the single generic error
`'Failed to read schema file'`. -/

def getTables (schemaRead : Option String) : Except String (List String) :=
  match schemaRead with
  | none => .error "Failed to read schema file"
  | some s =>
    let models := (scanModels s.data).map (fun w => String.mk w)
    if models.isEmpty then .error "Failed to read schema file"
    else .ok models

/-! ## `getTableFields` (`src/utils/schema.utils.ts`)

The regex `model\s+<name>\s+{([^}]+)}` with the table name spliced in
literally: leftmost match wins, the capture is the maximal nonempty run of
non-`}` characters after the `{`. -/

def tryModelAt (name : List Char) (l : List Char) : Option (List Char) :=
  if (s2l "model").isPrefixOf l then
    let r0 := l.drop 5
    let r1 := r0.dropWhile isWsChar
    if (r0.takeWhile isWsChar).isEmpty then none
    else if name.isPrefixOf r1 then
      let r2 := r1.drop name.length
      let r3 := r2.dropWhile isWsChar
      if (r2.takeWhile isWsChar).isEmpty then none
      else
        match r3 with
        | '{' :: r4 =>
          let body := r4.takeWhile (fun c => ¬ c = '}')
          let r5 := r4.dropWhile (fun c => ¬ c = '}')
          if body.isEmpty then none
          else
            match r5 with
            | '}' :: _ => some body
            | _ => none
        | _ => none
    else none
  else none

def findModelBlock (name : List Char) : List Char → Option (List Char)
  | [] => none
  | c :: cs =>
    match tryModelAt name (c :: cs) with
    | some body => some body
    | none => findModelBlock name cs

/-- `mapPrismaTypeToGeneratorType` in `src/utils/schema.utils.ts`. -/
def mapPrismaTypeToGeneratorType (prismaType : String) : String :=
  if prismaType = "String" then "string"
  else if prismaType = "Int" then "number"
  else if prismaType = "Float" then "number"
  else if prismaType = "Boolean" then "boolean"
  else if prismaType = "DateTime" then "date"
  else if prismaType = "Json" then "object"
  else "string"

structure FieldInfo where
  name : String
  type : String
  isRequired : Bool
deriving DecidableEq, Repr

/-- JavaScript `trim()` (ASCII whitespace). -/
def trimL (l : List Char) : List Char :=
  ((l.dropWhile isWsChar).reverse.dropWhile isWsChar).reverse

/-- Maximal non-whitespace runs, the effect of `split(/\\s+/)` on a trimmed
string (fuel-bounded structural recursion). -/
def wordsF (fuel : Nat) (l : List Char) : List (List Char) :=
  match fuel with
  | 0 => []
  | fuel + 1 =>
    match l with
    | [] => []
    | c :: r =>
      if isWsChar c then wordsF fuel r
      else (c :: r.takeWhile (fun x => ¬ isWsChar x))
        :: wordsF fuel (r.dropWhile (fun x => ¬ isWsChar x))

def wordsL (l : List Char) : List (List Char) := wordsF l.length l

/-- `line.trim().split(/\s+/)` for one already-split line (`[""]` on the
empty string, as in JavaScript). -/
def splitWsTrimmed (l : List Char) : List (List Char) :=
  if l.isEmpty then [[]] else wordsL l

/-- One line of a model body: first token is the field name, second the source
type; fewer than two tokens yields `null`; `?` anywhere in the raw line marks
the field optional. -/
def parseFieldLine (line : List Char) : Option FieldInfo :=
  match splitWsTrimmed (trimL line) with
  | p0 :: p1 :: _ =>
    some ⟨String.mk p0, mapPrismaTypeToGeneratorType (String.mk p1),
      ! containsL line ['?']⟩
  | _ => none

/-- The body of `getTableFields`' mapping/filtering over the captured block:
split into lines, parse each, drop `null`s and attribute lines (`@…`). -/
def parseFields (block : List Char) : List FieldInfo :=
  (splitNl (trimL block)).filterMap (fun line =>
    match parseFieldLine line with
    | some f => if (s2l "@").isPrefixOf f.name.data then none else some f
    | none => none)

/-- The inner body of `getTableFields`: throws the distinct message
`Model <name> not found in schema` when the block is missing. -/
def getTableFieldsInner (schemaContent : String) (tableName : String) :
    Except String (List FieldInfo) :=
  match findModelBlock tableName.data schemaContent.data with
  | none => .error ("Model " ++ tableName ++ " not found in schema")
  | some body => .ok (parseFields body)

/-- `getTableFields`: the whole body sits in one `try`; the `catch` swallows
both a failed read and the inner model-not-found throw and rethrows the
generic `'Failed to read schema file'`. -/
def getTableFields (schemaRead : Option String) (tableName : String) :
    Except String (List FieldInfo) :=
  match schemaRead with
  | none => .error "Failed to read schema file"
  | some s =>
    match getTableFieldsInner s tableName with
    | .error _ => .error "Failed to read schema file"
    | .ok fs => .ok fs

/-! ## Validation synthesis

Two synthesizers exist in the repository.

`BaseValidation` (`src/validation/base.validation.ts`) is the runtime one the
generated route modules call: it builds a zod object whose per-field
validators come from a `switch` on the semantic type with NO extra
constraints, wrapped in `.optional()` when the field is not required.

`generateValidationFile` (route-generator variant) emits validator source
text per field: `z.<zodType>()` via a lookup table, plus `.min(1).max(255)`
for `string` fields, `.min(0)` for `number` fields, `.email()` for `email`,
then `.optional()` when not required; the update schema is
`createSchema.partial()`. -/

inductive ZodBase
  | str
  | num
  | boolean
  | dateStr
  | obj
deriving DecidableEq, Repr

structure ZodField where
  base : ZodBase
  optional : Bool
deriving DecidableEq, Repr

/-- The `switch (field.type)` of `generateCreateSchema`. -/
def zodBaseOf (t : String) : ZodBase :=
  if t = "string" then .str
  else if t = "number" then .num
  else if t = "boolean" then .boolean
  else if t = "date" then .dateStr
  else if t = "object" then .obj
  else .str

namespace BaseValidation

/-- The `body` object of the create schema: each field's zod validator, made
optional exactly when the field is not required. -/
def generateCreateSchema (fields : List FieldInfo) : List (String × ZodField) :=
  fields.map (fun f => (f.name, ⟨zodBaseOf f.type, ! f.isRequired⟩))

/-- The `body` of the update schema: `createSchema.shape.body.partial()` —
every field of the create body made optional.  (The update schema also checks
`params.id`; the claims concern the body.) -/
def generateUpdateSchema (fields : List FieldInfo) : List (String × ZodField) :=
  (generateCreateSchema fields).map (fun p => (p.1, ⟨p.2.base, true⟩))

end BaseValidation

/-- JavaScript values for request bodies (the cases zod distinguishes here). -/
inductive JsValue
  | vStr (s : String)
  | vNum (n : Int)
  | vBool (b : Bool)
  | vObj
deriving DecidableEq, Repr

/-- Acceptance of one zod base validator.  `z.string()`, `z.number()`,
`z.boolean()` and `z.object({}).passthrough()` constrain only the type;
`z.string().datetime()` delegates its format check to zod, modelled as the
parameter `dt`. -/
def zodAccepts (dt : String → Bool) : ZodBase → JsValue → Bool
  | .str, .vStr _ => true
  | .num, .vNum _ => true
  | .boolean, .vBool _ => true
  | .dateStr, .vStr s => dt s
  | .obj, .vObj => true
  | _, _ => false

/-- Acceptance of a whole body object: every declared field must be present
and accepted, or absent and optional. -/
def bodyAccepts (dt : String → Bool) (schema : List (String × ZodField))
    (body : List (String × JsValue)) : Bool :=
  schema.all (fun p =>
    match body.find? (fun q => q.1 == p.1) with
    | some q => zodAccepts dt p.2.base q.2
    | none => p.2.optional)

/-- `mapTypeToZod` of the validation-file generator (lookup keyed on the
lowercased type, defaulting to `string`; note `object` is NOT in the table). -/
def mapTypeToZod (dbType : String) : String :=
  let k := toLowerStr dbType
  if k = "string" then "string"
  else if k = "text" then "string"
  else if k = "number" then "number"
  else if k = "int" then "number"
  else if k = "integer" then "number"
  else if k = "float" then "number"
  else if k = "decimal" then "number"
  else if k = "boolean" then "boolean"
  else if k = "date" then "date"
  else if k = "datetime" then "date"
  else if k = "timestamp" then "date"
  else if k = "uuid" then "string"
  else if k = "email" then "string"
  else "string"

/-- One field's validator expression in the emitted validation file
(`generateValidationFile`). -/
def fieldValidation (f : FieldInfo) : String :=
  let base := "z." ++ mapTypeToZod f.type ++ "()"
  let v1 :=
    if f.type = "string" then base ++ ".min(1).max(255)"
    else if f.type = "number" then base ++ ".min(0)"
    else if f.type = "email" then base ++ ".email()"
    else base
  if ! f.isRequired then v1 ++ ".optional()" else v1

/-- The optionality suffix the generator appends for non-required fields. -/
def optionalSuffix (f : FieldInfo) : String :=
  if f.isRequired then "" else ".optional()"

/-! ## Route template (`src/routes/route.generator.ts`)

`routeContent` is the exact text of the template literal in `generateRoute`
(braces written as hex escapes), including `JSON.stringify(fields, null, 2)`
for the embedded field list. -/

def jsonFieldObject (f : FieldInfo) : String :=
  "  \x7b\n    \"name\": \"" ++ f.name ++ "\",\n    \"type\": \"" ++ f.type
    ++ "\",\n    \"isRequired\": " ++ (if f.isRequired then "true" else "false")
    ++ "\n  \x7d"

def joinWith (sep : String) : List String → String
  | [] => ""
  | [s] => s
  | s :: ss => s ++ sep ++ joinWith sep ss

def jsonStringifyFields (fields : List FieldInfo) : String :=
  if fields.isEmpty then "[]"
  else "[\n" ++ joinWith ",\n" (fields.map jsonFieldObject) ++ "\n]"

def routeContent (tableName : String) (fields : List FieldInfo)
    (requiresAuth hasFileUploads : Bool) : String :=
  let lt := toLowerStr tableName
  let authTok := if requiresAuth then "auth()," else ""
  let upTok := if hasFileUploads then "uploadFile(\"file\")," else ""
  "\nimport \x7b Router \x7d from 'express';\nimport \x7b " ++ tableName
    ++ "Controller \x7d from '../controllers/" ++ lt
    ++ ".controller';\nimport \x7b validate \x7d from '../middleware/validate.middleware';\nimport \x7b BaseValidation \x7d from '../validation/base.validation';\nimport \x7b paginationSchema \x7d from '../validation/common.validation';\nimport \x7b catchAsync \x7d from '../middleware/async.middleware';\n"
    ++ (if requiresAuth then "import \x7b auth \x7d from '../middleware/auth.middleware';" else "")
    ++ "\n"
    ++ (if hasFileUploads then "import \x7b uploadFile, uploadFiles \x7d from '../middleware/upload.middleware';" else "")
    ++ "\n\nconst router = Router();\nconst controller = new " ++ tableName
    ++ "Controller();\n\n// Define field validation schemas\nconst fields = "
    ++ jsonStringifyFields fields
    ++ ";\nconst createSchema = BaseValidation.generateCreateSchema(fields);\nconst updateSchema = BaseValidation.generateUpdateSchema(fields);\n\n// Routes\nrouter.get(\n  '/',\n  "
    ++ authTok
    ++ "\n  validate(paginationSchema),\n  catchAsync(controller.getAll)\n);\n\nrouter.get(\n  '/:id',\n  "
    ++ authTok
    ++ "\n  validate(BaseValidation.idParamSchema),\n  catchAsync(controller.getOne)\n);\n\nrouter.post(\n  '/',\n  "
    ++ authTok ++ "\n  " ++ upTok
    ++ "\n  validate(createSchema),\n  catchAsync(controller.create)\n);\n\nrouter.patch(\n  '/:id',\n  "
    ++ authTok ++ "\n  " ++ upTok
    ++ "\n  validate(updateSchema),\n  catchAsync(controller.update)\n);\n\nrouter.delete(\n  '/:id',\n  "
    ++ authTok
    ++ "\n  validate(BaseValidation.idParamSchema),\n  catchAsync(controller.delete)\n);\n\nexport default router;\n"

/-! ## The route module's endpoint/middleware structure

`routeEndpoints` mirrors the five `router.<method>` registrations of the
template (lines 72–107 of `route.generator.ts`): each middleware appears in
chain order, conditionals exactly as interpolated. -/

inductive Middleware
  | auth
  | uploadFile (field : String)
  | validate (schema : String)
  | handler (action : String)
deriving DecidableEq, Repr

structure Endpoint where
  method : String
  path : String
  chain : List Middleware
deriving DecidableEq, Repr

def routeEndpoints (requiresAuth hasFileUploads : Bool) : List Endpoint :=
  let authMw := if requiresAuth then [Middleware.auth] else []
  let upMw := if hasFileUploads then [Middleware.uploadFile "file"] else []
  [ ⟨"get", "/", authMw ++ [.validate "paginationSchema", .handler "getAll"]⟩,
    ⟨"get", "/:id", authMw ++ [.validate "BaseValidation.idParamSchema", .handler "getOne"]⟩,
    ⟨"post", "/", authMw ++ upMw ++ [.validate "createSchema", .handler "create"]⟩,
    ⟨"patch", "/:id", authMw ++ upMw ++ [.validate "updateSchema", .handler "update"]⟩,
    ⟨"delete", "/:id", authMw ++ [.validate "BaseValidation.idParamSchema", .handler "delete"]⟩ ]

def isAuthMw : Middleware → Bool
  | .auth => true
  | _ => false

def isUploadMw : Middleware → Bool
  | .uploadFile _ => true
  | _ => false

def isValidateMw : Middleware → Bool
  | .validate _ => true
  | _ => false

def isHandlerMw : Middleware → Bool
  | .handler _ => true
  | _ => false

/-- `p` occurs in the chain strictly before the first `q`. -/
def mwBefore (p q : Middleware → Bool) (chain : List Middleware) : Bool :=
  match chain.findIdx? p, chain.findIdx? q with
  | some i, some j => decide (i < j)
  | _, _ => false

/-! ## Auth middleware (`src/middleware/auth.middleware.ts`)

The request's `Authorization` header is `Option String`; the JWT check is the
external collaborator `verifyToken`.  A missing header or one not starting
with `Bearer ` raises `AppError('No token provided', 401)` before any
handler. -/

structure AppError where
  message : String
  statusCode : Nat
deriving DecidableEq, Repr

def auth (verifyToken : String → Except AppError String)
    (authorization : Option String) : Except AppError String :=
  match authorization with
  | none => .error ⟨"No token provided", 401⟩
  | some h =>
    if (s2l "Bearer ").isPrefixOf h.data then
      verifyToken (String.mk (((splitOnCharL ' ' h.data).getD 1 [])))
    else .error ⟨"No token provided", 401⟩

/-! ## Route registry (`updateRouteIndex` in `src/commands/generate.ts`,
`generateRouteIndexFile` in `src/routes/route.generator.ts`) -/

def expressImportLine : List Char := s2l "import \x7b Router \x7d from 'express';"

def constRouterLine : List Char := s2l "const router = Router();"

def exportDefaultLine : List Char := s2l "export default router;"

def registerCommentLine : List Char := s2l "// Register routes"

/-- The initial content `updateRouteIndex` uses when the registry file does
not exist yet. -/
def defaultIndexContent : List Char :=
  s2l "import \x7b Router \x7d from 'express';\n\nconst router = Router();\n\nexport default router;\n"

/-- The existence probe `content.includes('import <tableName>Route')`. -/
def importNeedle (tableName : String) : List Char :=
  s2l "import " ++ tableName.data ++ s2l "Route"

/-- The import line `updateRouteIndex` appends. -/
def newImportLine (tableName : String) : List Char :=
  s2l "import " ++ tableName.data ++ s2l "Route from './"
    ++ (toLowerStr tableName).data ++ s2l ".route';"

/-- The mount line `updateRouteIndex` appends. -/
def newRouteLine (tableName : String) : List Char :=
  s2l "router.use('/" ++ (toLowerStr tableName).data ++ s2l "', "
    ++ tableName.data ++ s2l "Route);"

/-- The line-classification loop of `updateRouteIndex`: blank lines are
skipped; a line containing `const router = Router()` flips the section flags
before being classified itself; import-section lines starting with `import`
collect as imports; router-section lines containing `router.use(` collect as
mounts; everything else is an "other" line. -/
def classifyLines : List (List Char) → Bool → Bool →
    List (List Char) × List (List Char) × List (List Char)
  | [], _, _ => ([], [], [])
  | line :: rest, impSec, rtSec =>
    if (trimL line).isEmpty then classifyLines rest impSec rtSec
    else
      let hit := containsL line (s2l "const router = Router()")
      let impSec2 := if hit then false else impSec
      let rtSec2 := if hit then true else rtSec
      let r := classifyLines rest impSec2 rtSec2
      if impSec2 && (s2l "import").isPrefixOf line then
        (line :: r.1, r.2.1, r.2.2)
      else if rtSec2 && containsL line (s2l "router.use(") then
        (r.1, line :: r.2.1, r.2.2)
      else
        (r.1, r.2.1, line :: r.2.2)

/-- `updateRouteIndex`: returns the resulting registry content and whether a
write happened.  `existing = none` models a missing registry file. -/
def updateRouteIndex (existing : Option (List Char)) (tableName : String) :
    List Char × Bool :=
  let content := existing.getD defaultIndexContent
  if containsL content (importNeedle tableName) then (content, false)
  else
    let r := classifyLines (splitNl content) true false
    let newContent := joinNl ((r.1 ++ [newImportLine tableName]) ++ [[]]
      ++ [constRouterLine] ++ [[]]
      ++ (r.2.1 ++ [newRouteLine tableName]) ++ [[]]
      ++ (r.2.2.filter (fun l => containsL l (s2l "export default"))))
    (newContent, true)

/-- JavaScript `file.replace('.route.ts', '')`: remove the first occurrence. -/
def replaceFirstDrop (pat : List Char) : List Char → List Char
  | [] => []
  | c :: r =>
    if pat.isPrefixOf (c :: r) then (c :: r).drop pat.length
    else c :: replaceFirstDrop pat r

/-- The per-model stems of the route directory listing, as
`generateRouteIndexFile` computes them: files ending in `.route.ts` (and not
`index.ts`), with the first `.route.ts` occurrence removed. -/
def routeStems (files : List String) : List String :=
  (files.filter (fun f =>
    (s2l ".route.ts").isSuffixOf f.data && ! (f == "index.ts"))).map
    (fun f => String.mk (replaceFirstDrop (s2l ".route.ts") f.data))

def rebuildImportLine (n : String) : List Char :=
  s2l "import " ++ n.data ++ s2l "Route from './" ++ n.data ++ s2l ".route';"

def rebuildUseLine (n : String) : List Char :=
  s2l "router.use('/" ++ n.data ++ s2l "', " ++ n.data ++ s2l "Route);"

/-- The registry text `generateRouteIndexFile` writes for a given stem list
(the exact template literal, with its leading newline). -/
def rebuildFromStems (ns : List String) : List Char :=
  s2l "\n" ++ expressImportLine ++ s2l "\n"
    ++ joinNl (ns.map rebuildImportLine)
    ++ s2l "\n\n" ++ constRouterLine ++ s2l "\n\n" ++ registerCommentLine ++ s2l "\n"
    ++ joinNl (ns.map rebuildUseLine)
    ++ s2l "\n\n" ++ exportDefaultLine ++ s2l "\n"

/-- `generateRouteIndexFile`, reading the route directory listing `files`. -/
def generateRouteIndexFile (files : List String) : List Char :=
  rebuildFromStems (routeStems files)

/-- Mount-path extraction (observation function for the claims): the quoted
first argument of each `router.use(` line. -/
def extractMountPath (l : List Char) : List Char :=
  ((l.dropWhile (fun c => ¬ c = '\'')).drop 1).takeWhile (fun c => ¬ c = '\'')

def mountPaths (content : List Char) : List (List Char) :=
  ((splitNl content).filter (fun l => containsL l (s2l "router.use("))).map
    extractMountPath

/-- One registry maintenance step of the claims: an incremental insert or a
wholesale rebuild over the (fixed) route-file listing. -/
inductive RegistryOp
  | addRoute (tableName : String)
  | rebuild
deriving DecidableEq, Repr

def applyRegistryOp (files : List String) (content : List Char) :
    RegistryOp → List Char
  | .addRoute t => (updateRouteIndex (some content) t).1
  | .rebuild => generateRouteIndexFile files

def applyRegistryOps (files : List String) (content : List Char)
    (ops : List RegistryOp) : List Char :=
  ops.foldl (applyRegistryOp files) content

/-! ## Refresh workflow (`src/commands/refresh.ts`)

`extractRouteImports` is the scan of
`/import\s+(\w+)Route\s+from\s+'\.\/([^']+)'/g` over the registry text: at a
match, `\w+` greedily takes the maximal word run; backtracking succeeds only
when that run ends in `Route` (with a nonempty stem) followed by whitespace,
so the capture is the run minus its trailing `Route`. -/

def tryRouteImportAt (l : List Char) : Option (List Char × List Char) :=
  if (s2l "import").isPrefixOf l then
    let r0 := l.drop 6
    let r1 := r0.dropWhile isWsChar
    if (r0.takeWhile isWsChar).isEmpty then none
    else
      let w := r1.takeWhile isWordChar
      let r2 := r1.dropWhile isWordChar
      if w.isEmpty then none
      else if (s2l "Route").isSuffixOf w && decide (5 < w.length) then
        let r3 := r2.dropWhile isWsChar
        if (r2.takeWhile isWsChar).isEmpty then none
        else if (s2l "from").isPrefixOf r3 then
          let r4 := r3.drop 4
          let r5 := r4.dropWhile isWsChar
          if (r4.takeWhile isWsChar).isEmpty then none
          else
            match r5 with
            | '\'' :: '.' :: '/' :: r6 =>
              let p := r6.takeWhile (fun c => ¬ c = '\'')
              let r7 := r6.dropWhile (fun c => ¬ c = '\'')
              if p.isEmpty then none
              else
                match r7 with
                | '\'' :: r8 => some (w.take (w.length - 5), r8)
                | _ => none
            | _ => none
        else none
      else none
  else none

theorem tryRouteImportAt_length {l w rest : List Char}
    (h : tryRouteImportAt l = some (w, rest)) : rest.length < l.length := by
  unfold tryRouteImportAt at h
  split at h
  case isFalse => cases h
  case isTrue hpre =>
    have h6 : 6 ≤ l.length := by
      have := (List.isPrefixOf_iff_prefix.1 hpre).length_le
      simpa [s2l] using this
    simp only at h
    split at h
    · cases h
    split at h
    · cases h
    split at h
    case isFalse => cases h
    case isTrue =>
      split at h
      · cases h
      split at h
      case isFalse => cases h
      case isTrue =>
        split at h
        · cases h
        split at h
        case h_2 => cases h
        case h_1 r6 heq =>
          split at h
          · cases h
          split at h
          case h_2 => cases h
          case h_1 r8 heq2 =>
            simp only [Option.some.injEq, Prod.mk.injEq] at h
            obtain ⟨-, rfl⟩ := h
            -- chain the length bounds back to l
            have hb1 : r8.length < ((l.drop 6).dropWhile isWsChar).length + 1 := by
              have e1 : r6.length ≤
                  ((((((l.drop 6).dropWhile isWsChar).dropWhile isWordChar).dropWhile
                    isWsChar).drop 4).dropWhile isWsChar).length := by
                have hlen1 := congrArg List.length heq
                rw [List.length_cons, List.length_cons, List.length_cons] at hlen1
                omega
              have e2 : r8.length < r6.length + 1 := by
                have hds : (r6.dropWhile (fun c => ¬ c = '\'')).length ≤ r6.length :=
                  dropWhile_len_le _ r6
                have hlen2 := congrArg List.length heq2
                rw [List.length_cons] at hlen2
                omega
              have e3 := dropWhile_len_le isWsChar
                ((((((l.drop 6).dropWhile isWsChar).dropWhile isWordChar)).dropWhile
                  isWsChar).drop 4)
              have e4 : (((((l.drop 6).dropWhile isWsChar).dropWhile isWordChar)).dropWhile
                  isWsChar).length ≤ ((l.drop 6).dropWhile isWsChar).length := by
                have a1 := dropWhile_len_le isWsChar
                  (((l.drop 6).dropWhile isWsChar).dropWhile isWordChar)
                have a2 := dropWhile_len_le isWordChar ((l.drop 6).dropWhile isWsChar)
                omega
              have e5 : ((((((l.drop 6).dropWhile isWsChar).dropWhile isWordChar)).dropWhile
                  isWsChar).drop 4).length ≤
                  (((((l.drop 6).dropWhile isWsChar).dropWhile isWordChar)).dropWhile
                    isWsChar).length := by
                simp
              omega
            have hb2 : ((l.drop 6).dropWhile isWsChar).length ≤ l.length - 6 := by
              have := dropWhile_len_le isWsChar (l.drop 6)
              simpa using this
            omega

def extractRouteImportsF (fuel : Nat) (l : List Char) : List (List Char) :=
  match fuel with
  | 0 => []
  | fuel + 1 =>
    match l with
    | [] => []
    | c :: cs =>
      match tryRouteImportAt (c :: cs) with
      | some (w, rest) => w :: extractRouteImportsF fuel rest
      | none => extractRouteImportsF fuel cs

def extractRouteImports (l : List Char) : List (List Char) :=
  extractRouteImportsF l.length l

/-- The per-table record `getExistingTableApis` builds. -/
structure TableApiInfo where
  tableName : String
  routePath : String
  controllerPath : String
  servicePath : String
  fields : List FieldInfo
  requiresAuth : Bool
  hasFileUploads : Bool
deriving DecidableEq, Repr

/-- The project filesystem as (path, content) pairs; a read succeeds exactly
for listed paths. -/
def FsEnv : Type := List (String × String)

def readFileEnv (env : FsEnv) (p : String) : Option String :=
  (List.find? (fun e => e.1 == p) env).map (fun e => e.2)

/-- `getExistingTableApis`: read the registry; for each imported name check
the route/controller files at lowercased paths and the service file at the
VERBATIM-name path; read the route text and sniff `authMiddleware` /
`upload.single` / `upload.array`; re-read the fields from the schema.  Any
failure inside the per-table `try` skips that table with a warning. -/
def getExistingTableApis (env : FsEnv) : List TableApiInfo :=
  match readFileEnv env "src/routes/index.ts" with
  | none => []
  | some content =>
    (extractRouteImports content.data).filterMap (fun w =>
      let tableName := String.mk w
      let routePath := "src/routes/" ++ toLowerStr tableName ++ ".route.ts"
      let controllerPath := "src/controllers/" ++ toLowerStr tableName ++ ".controller.ts"
      let servicePath := "src/services/" ++ tableName ++ ".service.ts"
      match readFileEnv env routePath, readFileEnv env controllerPath,
        readFileEnv env servicePath with
      | some routeText, some _, some _ =>
        match getTableFields (readFileEnv env "prisma/schema.prisma") tableName with
        | .ok fs => some
            { tableName := tableName
              routePath := routePath
              controllerPath := controllerPath
              servicePath := servicePath
              fields := fs
              requiresAuth := containsL routeText.data (s2l "authMiddleware")
              hasFileUploads := containsL routeText.data (s2l "upload.single")
                || containsL routeText.data (s2l "upload.array") }
        | .error _ => none
      | _, _, _ => none)

/-! # Claims -/

/-! ## C5 — update-validator partiality -/

/-- Claim C5: for every field list the synthesized update validator treats
every body field as optional, regardless of how many fields are required,
while the create validator requires exactly the `isRequired` fields: the
create/update asymmetry holds for every field list. -/
theorem C5_update_validator_partiality (fields : List FieldInfo) :
    ((BaseValidation.generateUpdateSchema fields).map (fun p => p.2.optional))
      = List.replicate fields.length true
    ∧ ((BaseValidation.generateCreateSchema fields).map (fun p => p.2.optional))
      = fields.map (fun f => ! f.isRequired) := by
  constructor
  · induction fields with
    | nil => rfl
    | cons f fs ih =>
      simpa [BaseValidation.generateUpdateSchema, BaseValidation.generateCreateSchema,
        List.replicate] using ih
  · induction fields with
    | nil => rfl
    | cons f fs ih =>
      simpa [BaseValidation.generateCreateSchema] using ih

/-! ## C4 — per-field validator derivation -/

/-- Claim C4 counterexample: the claim asserts every string-typed field is
constrained to length ≥ 1, but the runtime create validator synthesized by
`BaseValidation.generateCreateSchema` (which the generated route modules
use) accepts the empty string for a required string field — it carries no
length constraint at all. -/
theorem C4_counterexample :
    bodyAccepts (fun _ => false)
      (BaseValidation.generateCreateSchema [⟨"title", "string", true⟩])
      [("title", JsValue.vStr "")] = true := by
  rfl

/-- Claim C4 as amended: the validation-FILE synthesizer
(`generateValidationFile`) derives exactly the claimed constraints — string
fields get `.min(1).max(255)`, number fields `.min(0)`, boolean and date
fields only their type, and (a quirk the code forces) object-typed fields
fall through the zod type table to an unconstrained `z.string()`; each is
wrapped `.optional()` exactly when the field is not required.  The runtime
`BaseValidation` create validator, by contrast, constrains string fields
only by type: it accepts every string. -/
theorem C4_amended_field_validators (f : FieldInfo) :
    (f.type = "string" → fieldValidation f = "z.string().min(1).max(255)" ++ optionalSuffix f)
    ∧ (f.type = "number" → fieldValidation f = "z.number().min(0)" ++ optionalSuffix f)
    ∧ (f.type = "boolean" → fieldValidation f = "z.boolean()" ++ optionalSuffix f)
    ∧ (f.type = "date" → fieldValidation f = "z.date()" ++ optionalSuffix f)
    ∧ (f.type = "object" → fieldValidation f = "z.string()" ++ optionalSuffix f)
    ∧ (∀ dt s, zodAccepts dt (zodBaseOf "string") (JsValue.vStr s) = true) := by
  obtain ⟨n, t, r⟩ := f
  refine ⟨?_, ?_, ?_, ?_, ?_, fun dt s => rfl⟩ <;>
    (intro ht; simp only at ht; subst ht; cases r <;> rfl)

/-- Witness for the amended C4 at a concrete optional string field. -/
theorem C4_amended_witness :
    fieldValidation ⟨"title", "string", false⟩
      = "z.string().min(1).max(255)" ++ optionalSuffix ⟨"title", "string", false⟩ :=
  (C4_amended_field_validators ⟨"title", "string", false⟩).1 rfl

/-! ## C6 — middleware gating in the synthesized route module -/

/-- Claim C6: with `requiresAuth` every one of the five endpoints starts its
chain with the auth guard, before validation and the handler; with
`hasFileUploads` exactly the create (3rd) and update (4th) endpoints carry
the single-file upload middleware, placed before validation, and without it
none do; and the auth guard rejects with 401 (`No token provided`) whenever
the Authorization header is absent or does not start with `Bearer `. -/
theorem C6_middleware_gating :
    (∀ up : Bool, ∀ e ∈ routeEndpoints true up,
      e.chain.head? = some Middleware.auth
        ∧ mwBefore isAuthMw isValidateMw e.chain = true
        ∧ mwBefore isAuthMw isHandlerMw e.chain = true)
    ∧ (∀ ra : Bool,
      ((routeEndpoints ra true).map (fun e => e.chain.any isUploadMw)
          = [false, false, true, true, false])
        ∧ (∀ e ∈ routeEndpoints ra true, e.chain.any isUploadMw = true →
            mwBefore isUploadMw isValidateMw e.chain = true)
        ∧ (∀ e ∈ routeEndpoints ra false, e.chain.any isUploadMw = false))
    ∧ (∀ verifyToken, auth verifyToken none = .error ⟨"No token provided", 401⟩)
    ∧ (∀ verifyToken h, (s2l "Bearer ").isPrefixOf h.data = false →
        auth verifyToken (some h) = .error ⟨"No token provided", 401⟩) := by
  refine ⟨by decide, by decide, fun v => rfl, fun v h hp => ?_⟩
  simp [auth, hp]

/-- Witness for C6 at a concrete malformed header. -/
theorem C6_witness :
    auth (fun t => Except.ok t) (some "Token abc")
      = .error ⟨"No token provided", 401⟩ :=
  C6_middleware_gating.2.2.2 (fun t => Except.ok t) "Token abc" (by decide)

/-! ## C7 — incremental-insert idempotence -/

theorem newImportLine_eq (t : String) :
    newImportLine t = importNeedle t
      ++ (s2l " from './" ++ (toLowerStr t).data ++ s2l ".route';") := by
  unfold newImportLine importNeedle
  rw [show s2l "Route from './" = s2l "Route" ++ s2l " from './" from rfl]
  simp [List.append_assoc]

theorem contains_of_prefix_mem {needle line : List Char} {L : List (List Char)}
    (hpre : needle <+: line) (hmem : line ∈ L) : containsL (joinNl L) needle = true :=
  (containsL_iff ..).2 (hpre.isInfix.trans (mem_infix_joinNl hmem))

/-- Claim C7: for every starting registry content (or a missing registry
file) and every model name, a second `updateRouteIndex` with the same name
returns the first call's content byte-for-byte and performs no write. -/
theorem C7_insert_idempotent (existing : Option (List Char)) (tableName : String) :
    updateRouteIndex (some (updateRouteIndex existing tableName).1) tableName
      = ((updateRouteIndex existing tableName).1, false) := by
  by_cases hfound :
      containsL (existing.getD defaultIndexContent) (importNeedle tableName) = true
  · have h1 : updateRouteIndex existing tableName
        = (existing.getD defaultIndexContent, false) := by
      unfold updateRouteIndex
      rw [if_pos hfound]
    rw [h1]
    unfold updateRouteIndex
    simp only [Option.getD_some]
    rw [if_pos hfound]
  · have hfound2 :
        containsL (existing.getD defaultIndexContent) (importNeedle tableName) = false := by
      cases hc : containsL (existing.getD defaultIndexContent) (importNeedle tableName)
      · rfl
      · exact absurd hc hfound
    have h1 : updateRouteIndex existing tableName
        = (joinNl (((classifyLines (splitNl (existing.getD defaultIndexContent))
            true false).1 ++ [newImportLine tableName]) ++ [[]]
            ++ [constRouterLine] ++ [[]]
            ++ ((classifyLines (splitNl (existing.getD defaultIndexContent))
              true false).2.1 ++ [newRouteLine tableName]) ++ [[]]
            ++ ((classifyLines (splitNl (existing.getD defaultIndexContent))
              true false).2.2.filter (fun l => containsL l (s2l "export default")))),
          true) := by
      unfold updateRouteIndex
      rw [if_neg (by rw [hfound2]; simp)]
    have hmem : newImportLine tableName ∈
        (((classifyLines (splitNl (existing.getD defaultIndexContent))
            true false).1 ++ [newImportLine tableName]) ++ [[]]
            ++ [constRouterLine] ++ [[]]
            ++ ((classifyLines (splitNl (existing.getD defaultIndexContent))
              true false).2.1 ++ [newRouteLine tableName]) ++ [[]]
            ++ ((classifyLines (splitNl (existing.getD defaultIndexContent))
              true false).2.2.filter (fun l => containsL l (s2l "export default")))) := by
      simp
    have hpre : importNeedle tableName <+: newImportLine tableName := by
      rw [newImportLine_eq]
      exact List.prefix_append ..
    have hcontains := contains_of_prefix_mem hpre hmem
    rw [h1]
    unfold updateRouteIndex
    simp only [Option.getD_some]
    rw [if_pos hcontains]

/-! ## C3 — error taxonomy of the Schema Reader -/

/-- Claim C3 counterexample: an unreadable schema file and a readable schema
lacking the requested model produce the IDENTICAL error value
`Failed to read schema file` — the caller cannot distinguish the two causes,
contradicting the claimed distinct, distinguishable errors. -/
theorem C3_counterexample :
    getTableFields none "user"
        = getTableFields (some "model post \x7b\n  id Int\n\x7d") "user"
    ∧ getTableFields none "user" = Except.error "Failed to read schema file" := by
  constructor <;> rfl

/-- Claim C3 as amended: `getTableFields` does construct a distinct
`Model <name> not found in schema` error internally when the schema is
readable but lacks the model, but its catch-all converts both that and a
failed read into the same generic `Failed to read schema file` error, so the
two failure causes are not distinguishable by the caller. -/
theorem C3_amended_error_collapse (tableName : String) (schema : String)
    (h : findModelBlock tableName.data schema.data = none) :
    getTableFields none tableName = Except.error "Failed to read schema file"
    ∧ getTableFields (some schema) tableName
        = Except.error "Failed to read schema file"
    ∧ getTableFieldsInner schema tableName
        = Except.error ("Model " ++ tableName ++ " not found in schema") := by
  have hin : getTableFieldsInner schema tableName
      = Except.error ("Model " ++ tableName ++ " not found in schema") := by
    unfold getTableFieldsInner
    rw [h]
  refine ⟨rfl, ?_, hin⟩
  show (match getTableFieldsInner schema tableName with
    | Except.error _ =>
        (Except.error "Failed to read schema file" : Except String (List FieldInfo))
    | Except.ok fs => Except.ok fs) = Except.error "Failed to read schema file"
  rw [hin]

/-- Witness for the amended C3 at a concrete one-model schema. -/
theorem C3_amended_witness :
    getTableFields (some "model post \x7b\n  id Int\n\x7d") "user"
        = Except.error "Failed to read schema file"
    ∧ getTableFieldsInner "model post \x7b\n  id Int\n\x7d" "user"
        = Except.error "Model user not found in schema" :=
  ⟨(C3_amended_error_collapse "user" "model post \x7b\n  id Int\n\x7d" (by rfl)).2.1,
    (C3_amended_error_collapse "user" "model post \x7b\n  id Int\n\x7d" (by rfl)).2.2⟩

/-! ## C8 — model enumeration -/

/-- Claim C8 counterexample: for a schema text with zero `model` blocks the
claim demands an empty listing, but `getTables` throws
(`No tables found in the database schema`, rethrown by its catch as the
generic read error) instead of returning zero names. -/
theorem C8_counterexample :
    getTables (some "") = Except.error "Failed to read schema file" := by
  rfl

/-- Claim C8 as amended: for every schema text consisting of N well-formed
`model <Name> { ... }` blocks in sequence, when N ≥ 1 the model listing
returns exactly the N model names in order of appearance; when N = 0 the
operation fails with an error rather than returning an empty list. -/
theorem C8_amended_model_enumeration (ms : List (String × String))
    (hwf : WellFormedModels ms) (hne : ms ≠ []) :
    getTables (some (mkSchema ms)) = Except.ok (ms.map (fun m => m.1))
    ∧ getTables (some (mkSchema [])) = Except.error "Failed to read schema file" := by
  refine ⟨?_, rfl⟩
  unfold getTables
  simp only [scanModels_mkSchema hwf, List.map_map]
  have hmap : ms.map ((fun w => String.mk w) ∘ fun m => m.1.data)
      = ms.map (fun m => m.1) := by
    apply List.map_congr_left
    intro m hm
    show String.mk m.1.data = m.1
    cases hm1 : m.1
    rfl
  rw [hmap, if_neg]
  simp only [List.isEmpty_iff, List.map_eq_nil_iff]
  exact hne

/-- Witness for the amended C8 at a concrete two-model schema. -/
theorem C8_amended_witness :
    getTables (some (mkSchema [("a", " x "), ("b", " y ")]))
        = Except.ok (([("a", " x "), ("b", " y ")]).map (fun m => m.1))
    ∧ getTables (some (mkSchema [])) = Except.error "Failed to read schema file" :=
  C8_amended_model_enumeration [("a", " x "), ("b", " y ")]
    (by unfold WellFormedModels; decide) (by decide)

/-! ## C10 — the incremental insert discards unrecognized registry content -/

theorem classifyLines_blank {line : List Char} (rest : List (List Char)) (i r : Bool)
    (h : (trimL line).isEmpty = true) :
    classifyLines (line :: rest) i r = classifyLines rest i r := by
  simp [classifyLines, h]

theorem classifyLines_import {line : List Char} (rest : List (List Char)) (i r : Bool)
    (hb : (trimL line).isEmpty = false)
    (h1 : ((!containsL line (s2l "const router = Router()") && i)
      && (s2l "import").isPrefixOf line) = true) :
    classifyLines (line :: rest) i r
      = (line :: (classifyLines rest
            (!containsL line (s2l "const router = Router()") && i)
            (containsL line (s2l "const router = Router()") || r)).1,
        (classifyLines rest
            (!containsL line (s2l "const router = Router()") && i)
            (containsL line (s2l "const router = Router()") || r)).2.1,
        (classifyLines rest
            (!containsL line (s2l "const router = Router()") && i)
            (containsL line (s2l "const router = Router()") || r)).2.2) := by
  simp [classifyLines, hb, h1]

theorem classifyLines_use {line : List Char} (rest : List (List Char)) (i r : Bool)
    (hb : (trimL line).isEmpty = false)
    (h1 : ((!containsL line (s2l "const router = Router()") && i)
      && (s2l "import").isPrefixOf line) = false)
    (h2 : ((containsL line (s2l "const router = Router()") || r)
      && containsL line (s2l "router.use(")) = true) :
    classifyLines (line :: rest) i r
      = ((classifyLines rest
            (!containsL line (s2l "const router = Router()") && i)
            (containsL line (s2l "const router = Router()") || r)).1,
        line :: (classifyLines rest
            (!containsL line (s2l "const router = Router()") && i)
            (containsL line (s2l "const router = Router()") || r)).2.1,
        (classifyLines rest
            (!containsL line (s2l "const router = Router()") && i)
            (containsL line (s2l "const router = Router()") || r)).2.2) := by
  simp [classifyLines, hb, h1, h2]

theorem classifyLines_other {line : List Char} (rest : List (List Char)) (i r : Bool)
    (hb : (trimL line).isEmpty = false)
    (h1 : ((!containsL line (s2l "const router = Router()") && i)
      && (s2l "import").isPrefixOf line) = false)
    (h2 : ((containsL line (s2l "const router = Router()") || r)
      && containsL line (s2l "router.use(")) = false) :
    classifyLines (line :: rest) i r
      = ((classifyLines rest
            (!containsL line (s2l "const router = Router()") && i)
            (containsL line (s2l "const router = Router()") || r)).1,
        (classifyLines rest
            (!containsL line (s2l "const router = Router()") && i)
            (containsL line (s2l "const router = Router()") || r)).2.1,
        line :: (classifyLines rest
            (!containsL line (s2l "const router = Router()") && i)
            (containsL line (s2l "const router = Router()") || r)).2.2) := by
  simp [classifyLines, hb, h1, h2]

theorem classifyLines_spec (ls : List (List Char)) (i r : Bool) :
    (∀ l ∈ (classifyLines ls i r).1, (s2l "import").isPrefixOf l = true ∧ l ∈ ls)
    ∧ (∀ l ∈ (classifyLines ls i r).2.1,
        containsL l (s2l "router.use(") = true ∧ l ∈ ls)
    ∧ (∀ l ∈ (classifyLines ls i r).2.2, l ∈ ls) := by
  induction ls generalizing i r with
  | nil =>
    refine ⟨?_, ?_, ?_⟩ <;> (intro l h; cases h)
  | cons line rest ih =>
    by_cases hb : (trimL line).isEmpty = true
    · rw [classifyLines_blank rest i r hb]
      refine ⟨?_, ?_, ?_⟩
      · exact fun l hl => ((ih _ _).1 l hl).imp id (List.mem_cons_of_mem line)
      · exact fun l hl => ((ih _ _).2.1 l hl).imp id (List.mem_cons_of_mem line)
      · exact fun l hl => List.mem_cons_of_mem line ((ih _ _).2.2 l hl)
    · have hb2 : (trimL line).isEmpty = false := Bool.eq_false_iff.2 hb
      by_cases h1 : ((!containsL line (s2l "const router = Router()") && i)
          && (s2l "import").isPrefixOf line) = true
      · rw [classifyLines_import rest i r hb2 h1]
        rw [Bool.and_eq_true] at h1
        refine ⟨?_, ?_, ?_⟩
        · intro l hl
          rcases List.mem_cons.1 hl with rfl | hl
          · exact ⟨h1.2, List.mem_cons_self _ _⟩
          · exact ((ih _ _).1 l hl).imp id (List.mem_cons_of_mem line)
        · exact fun l hl => ((ih _ _).2.1 l hl).imp id (List.mem_cons_of_mem line)
        · exact fun l hl => List.mem_cons_of_mem line ((ih _ _).2.2 l hl)
      · have h1f : ((!containsL line (s2l "const router = Router()") && i)
            && (s2l "import").isPrefixOf line) = false := Bool.eq_false_iff.2 h1
        by_cases h2 : ((containsL line (s2l "const router = Router()") || r)
            && containsL line (s2l "router.use(")) = true
        · rw [classifyLines_use rest i r hb2 h1f h2]
          rw [Bool.and_eq_true] at h2
          refine ⟨?_, ?_, ?_⟩
          · exact fun l hl => ((ih _ _).1 l hl).imp id (List.mem_cons_of_mem line)
          · intro l hl
            rcases List.mem_cons.1 hl with rfl | hl
            · exact ⟨h2.2, List.mem_cons_self _ _⟩
            · exact ((ih _ _).2.1 l hl).imp id (List.mem_cons_of_mem line)
          · exact fun l hl => List.mem_cons_of_mem line ((ih _ _).2.2 l hl)
        · have h2f : ((containsL line (s2l "const router = Router()") || r)
              && containsL line (s2l "router.use(")) = false := Bool.eq_false_iff.2 h2
          rw [classifyLines_other rest i r hb2 h1f h2f]
          refine ⟨?_, ?_, ?_⟩
          · exact fun l hl => ((ih _ _).1 l hl).imp id (List.mem_cons_of_mem line)
          · exact fun l hl => ((ih _ _).2.1 l hl).imp id (List.mem_cons_of_mem line)
          · intro l hl
            rcases List.mem_cons.1 hl with rfl | hl
            · exact List.mem_cons_self _ _
            · exact List.mem_cons_of_mem line ((ih _ _).2.2 l hl)

theorem newImportLine_starts (t : String) :
    (s2l "import").isPrefixOf (newImportLine t) = true := by
  rw [List.isPrefixOf_iff_prefix]
  unfold newImportLine
  rw [show s2l "import " = s2l "import" ++ [' '] from rfl]
  simp only [List.append_assoc]
  exact List.prefix_append ..

theorem newRouteLine_contains (t : String) :
    containsL (newRouteLine t) (s2l "router.use(") = true := by
  rw [containsL_iff]
  unfold newRouteLine
  rw [show s2l "router.use('/" = s2l "router.use(" ++ s2l "'/" from rfl]
  simp only [List.append_assoc]
  exact (List.prefix_append ..).isInfix

/-- Claim C10: whenever the incremental insert rewrites the registry, the
resulting file is exactly the collected import lines plus the new import, one
`const router = Router();` declaration, the collected mount lines plus the
new mount, and the prior content's `export default` lines, separated by
single blank lines; consequently every prior line other than collected
import/mount lines, `export default` lines, the `const` declaration and
blank lines is absent from the output. -/
theorem C10_insert_discards_unrecognized (content : List Char) (t : String)
    (hnlI : '\n' ∉ newImportLine t) (hnlR : '\n' ∉ newRouteLine t)
    (hmiss : containsL content (importNeedle t) = false) :
    (updateRouteIndex (some content) t).2 = true
    ∧ splitNl (updateRouteIndex (some content) t).1
      = ((classifyLines (splitNl content) true false).1 ++ [newImportLine t]) ++ [[]]
        ++ [constRouterLine] ++ [[]]
        ++ ((classifyLines (splitNl content) true false).2.1 ++ [newRouteLine t]) ++ [[]]
        ++ ((classifyLines (splitNl content) true false).2.2.filter
            (fun l => containsL l (s2l "export default")))
    ∧ (∀ l ∈ splitNl content, l ∈ splitNl (updateRouteIndex (some content) t).1 →
        (s2l "import").isPrefixOf l = true ∨ containsL l (s2l "router.use(") = true
        ∨ containsL l (s2l "export default") = true ∨ l = constRouterLine ∨ l = []) := by
  have hspec := classifyLines_spec (splitNl content) true false
  have hnolines : ∀ l ∈ splitNl content, '\n' ∉ l :=
    fun l hl => noNl_mem_splitOnCharL hl
  set L := ((classifyLines (splitNl content) true false).1 ++ [newImportLine t]) ++ [[]]
    ++ [constRouterLine] ++ [[]]
    ++ ((classifyLines (splitNl content) true false).2.1 ++ [newRouteLine t]) ++ [[]]
    ++ ((classifyLines (splitNl content) true false).2.2.filter
        (fun l => containsL l (s2l "export default"))) with hL
  have h1 : updateRouteIndex (some content) t = (joinNl L, true) := by
    unfold updateRouteIndex
    simp only [Option.getD_some]
    rw [if_neg (by rw [hmiss]; simp), hL]
  have hLnoNl : ∀ l ∈ L, '\n' ∉ l := by
    intro l hl
    rw [hL] at hl
    simp only [List.mem_append, List.mem_singleton, List.mem_filter] at hl
    rcases hl with ((((((hl | rfl) | rfl) | rfl) | rfl) | (hl | rfl)) | rfl) | ⟨hl, -⟩
    · exact hnolines l ((hspec.1 l hl).2)
    · exact hnlI
    · simp
    · decide
    · simp
    · exact hnolines l ((hspec.2.1 l hl).2)
    · exact hnlR
    · simp
    · exact hnolines l (hspec.2.2 l hl)
  have hLne : L ≠ [] := by
    rw [hL]
    simp
  have hsplit : splitNl (updateRouteIndex (some content) t).1 = L := by
    rw [h1]
    exact splitNl_joinNl hLne hLnoNl
  refine ⟨by rw [h1], by rw [hsplit, hL], ?_⟩
  intro l hlc hlL
  rw [hsplit, hL] at hlL
  simp only [List.mem_append, List.mem_singleton, List.mem_filter] at hlL
  rcases hlL with ((((((hl | rfl) | rfl) | rfl) | rfl) | (hl | rfl)) | rfl) | ⟨-, hexp⟩
  · exact Or.inl (hspec.1 l hl).1
  · exact Or.inl (newImportLine_starts t)
  · exact Or.inr (Or.inr (Or.inr (Or.inr rfl)))
  · exact Or.inr (Or.inr (Or.inr (Or.inl rfl)))
  · exact Or.inr (Or.inr (Or.inr (Or.inr rfl)))
  · exact Or.inr (Or.inl (hspec.2.1 l hl).1)
  · exact Or.inr (Or.inl (newRouteLine_contains t))
  · exact Or.inr (Or.inr (Or.inr (Or.inr rfl)))
  · exact Or.inr (Or.inr (Or.inl hexp))

/-- Witness for C10: a registry containing a comment, a stray statement and a
hand-edit loses exactly those lines on insert. -/
theorem C10_witness :
    '\n' ∉ newImportLine "user" ∧ '\n' ∉ newRouteLine "user"
    ∧ containsL
        (s2l "// hand-written header\nimport \x7b Router \x7d from 'express';\nconst extra = 1;\n\nconst router = Router();\n\nrouter.use('/post', postRoute);\n\nexport default router;\n")
        (importNeedle "user") = false
    ∧ (∀ l ∈ splitNl (s2l "// hand-written header\nimport \x7b Router \x7d from 'express';\nconst extra = 1;\n\nconst router = Router();\n\nrouter.use('/post', postRoute);\n\nexport default router;\n"),
        l ∈ splitNl (updateRouteIndex
          (some (s2l "// hand-written header\nimport \x7b Router \x7d from 'express';\nconst extra = 1;\n\nconst router = Router();\n\nrouter.use('/post', postRoute);\n\nexport default router;\n"))
          "user").1 →
        (s2l "import").isPrefixOf l = true ∨ containsL l (s2l "router.use(") = true
        ∨ containsL l (s2l "export default") = true ∨ l = constRouterLine ∨ l = []) :=
  ⟨by decide, by decide, by decide,
    (C10_insert_discards_unrecognized
      (s2l "// hand-written header\nimport \x7b Router \x7d from 'express';\nconst extra = 1;\n\nconst router = Router();\n\nrouter.use('/post', postRoute);\n\nexport default router;\n")
      "user" (by decide) (by decide) (by decide)).2.2⟩

/-! ## C1 — options round-trip on refresh -/

/-- A project state produced by generating the model `post` with
`requiresAuth = true` and `hasFileUploads = true`: the registry from the
wholesale rebuild, the route file text from `generateRoute`'s template, the
controller and service files, and the schema containing the model. -/
def envRoundTrip : FsEnv :=
  [ ("src/routes/index.ts", String.mk (generateRouteIndexFile ["post.route.ts"])),
    ("src/routes/post.route.ts", routeContent "post" [⟨"id", "number", true⟩] true true),
    ("src/controllers/post.controller.ts", "// controller source"),
    ("src/services/post.service.ts", "// service source"),
    ("prisma/schema.prisma", "model post \x7b\n  id Int\n\x7d") ]

/-- Claim C1 fails on the code (code bug): the model `post` was generated
with options `(requiresAuth, hasFileUploads) = (true, true)` — its route file
text contains `auth(),` and `uploadFile("file"),` — yet `getExistingTableApis`
sniffs for the tokens `authMiddleware` / `upload.single` / `upload.array`,
none of which `generateRoute` ever emits, so it reports `(false, false)`:
options never round-trip when set. -/
theorem C1_options_do_not_round_trip :
    (getExistingTableApis envRoundTrip).map
        (fun a => (a.tableName, a.requiresAuth, a.hasFileUploads))
      = [("post", false, false)]
    ∧ containsL (routeContent "post" [⟨"id", "number", true⟩] true true).data
        (s2l "auth(),") = true
    ∧ containsL (routeContent "post" [⟨"id", "number", true⟩] true true).data
        (s2l "uploadFile(\"file\"),") = true := by
  refine ⟨by decide, by decide, by decide⟩

/-! ## C9 — refresh tolerance of partial projects -/

/-- A project state where `Post` was generated (route, controller and service
files all present at their conventional lowercased paths, model present in
the schema) and the registry records `import PostRoute from './post.route';`. -/
def envPartial : FsEnv :=
  [ ("src/routes/index.ts", String.mk (updateRouteIndex none "Post").1),
    ("src/routes/post.route.ts", routeContent "Post" [⟨"id", "number", true⟩] false false),
    ("src/controllers/post.controller.ts", "// controller source"),
    ("src/services/post.service.ts", "// service source"),
    ("prisma/schema.prisma", "model Post \x7b\n  id Int\n\x7d") ]

/-- Claim C9 fails on the code (code bug): `Post`'s route, controller and
service files all exist at their conventional lowercased paths and the model
is in the schema, so the claim requires `Post` in the refreshable set; but
`getExistingTableApis` probes the service file at the NON-lowercased path
`src/services/Post.service.ts` — a path `generateService` never writes — so
the model is skipped and the refreshable set is empty. -/
theorem C9_lowercase_service_path_skipped :
    getExistingTableApis envPartial = []
    ∧ (extractRouteImports (String.mk (updateRouteIndex none "Post").1).data).map
        (fun w => String.mk w) = ["Post"]
    ∧ readFileEnv envPartial "src/routes/post.route.ts" ≠ none
    ∧ readFileEnv envPartial "src/controllers/post.controller.ts" ≠ none
    ∧ readFileEnv envPartial "src/services/post.service.ts" ≠ none
    ∧ readFileEnv envPartial "src/services/Post.service.ts" = none := by
  refine ⟨by decide, by decide, by decide, by decide, by decide, by decide⟩

/-! ## C2 — registry invariant and convergence

The analysis of where the probe `import <t>Route` can occur relies on each
registry line containing at most one upper-case `R`: a match must align its
`R` with the line's, and the prefix comparison then pins the candidate name
down (or is impossible). -/

theorem importNeedle_decomp (t : String) :
    importNeedle t = (s2l "import " ++ t.data) ++ 'R' :: s2l "oute" := by
  unfold importNeedle
  rw [show s2l "Route" = 'R' :: s2l "oute" from rfl]
  try simp [List.append_assoc]

theorem rebuildImportLine_decomp (t : String) :
    rebuildImportLine t = importNeedle t
      ++ (s2l " from './" ++ t.data ++ s2l ".route';") := by
  unfold rebuildImportLine importNeedle
  rw [show s2l "Route from './" = s2l "Route" ++ s2l " from './" from rfl]
  simp [List.append_assoc]

theorem rebuildImportLine_starts (t : String) :
    (s2l "import").isPrefixOf (rebuildImportLine t) = true := by
  rw [List.isPrefixOf_iff_prefix]
  unfold rebuildImportLine
  rw [show s2l "import " = s2l "import" ++ [' '] from rfl]
  simp only [List.append_assoc]
  exact List.prefix_append ..

theorem rebuildUseLine_contains (t : String) :
    containsL (rebuildUseLine t) (s2l "router.use(") = true := by
  rw [containsL_iff]
  unfold rebuildUseLine
  rw [show s2l "router.use('/" = s2l "router.use(" ++ s2l "'/" from rfl]
  simp only [List.append_assoc]
  exact (List.prefix_append ..).isInfix

theorem char_not_mem_rebuildImportLine {c : Char} {s : String}
    (hs : ∀ d ∈ s.data, isLowerWordChar d = true)
    (h1 : c ∉ s2l "import ") (h2 : c ∉ s2l "Route from './") (h3 : c ∉ s2l ".route';")
    (hc : isLowerWordChar c = false) : c ∉ rebuildImportLine s := by
  unfold rebuildImportLine
  intro hm
  simp only [List.append_assoc, List.mem_append] at hm
  rcases hm with hm | hm | hm | hm | hm
  · exact h1 hm
  · exact lowerWord_not_mem hs hc hm
  · exact h2 hm
  · exact lowerWord_not_mem hs hc hm
  · exact h3 hm

theorem char_not_mem_rebuildUseLine {c : Char} {s : String}
    (hs : ∀ d ∈ s.data, isLowerWordChar d = true)
    (h1 : c ∉ s2l "router.use('/") (h2 : c ∉ s2l "', ") (h3 : c ∉ s2l "Route);")
    (hc : isLowerWordChar c = false) : c ∉ rebuildUseLine s := by
  unfold rebuildUseLine
  intro hm
  simp only [List.append_assoc, List.mem_append] at hm
  rcases hm with hm | hm | hm | hm | hm
  · exact h1 hm
  · exact lowerWord_not_mem hs hc hm
  · exact h2 hm
  · exact lowerWord_not_mem hs hc hm
  · exact h3 hm

/-- If `A` ends in a character outside the lower-word class, it cannot end in
the needle's prefix `import <t>` for a nonempty lower-word `t`. -/
theorem ne_concat_import_lower {t : String} (hne : t.data ≠ [])
    (hlw : ∀ c ∈ t.data, isLowerWordChar c = true)
    {A : List Char} {c : Char} (hlast : A.getLast? = some c)
    (hc : isLowerWordChar c = false) :
    ∀ u : List Char, A ≠ u ++ (s2l "import " ++ t.data) := by
  intro u h
  obtain ⟨d, hd⟩ : ∃ d, t.data.getLast? = some d := by
    cases hgl : t.data.getLast? with
    | some d => exact ⟨d, rfl⟩
    | none => exact absurd (List.getLast?_eq_none_iff.1 hgl) hne
  have hdmem : d ∈ t.data := List.mem_of_mem_getLast? hd
  have hA : A.getLast? = some d := by
    rw [h, List.getLast?_append, List.getLast?_append, hd]
    rfl
  rw [hlast] at hA
  injection hA with hA
  rw [hA, hlw d hdmem] at hc
  cases hc

/-- Aligning `u ++ import <t>` with `import <s>` forces `t = s`. -/
theorem concat_import_eq_name {t s : String}
    (hlw : ∀ c ∈ t.data, isLowerWordChar c = true)
    (hsw : ∀ c ∈ s.data, isLowerWordChar c = true)
    {u : List Char} (h : u ++ (s2l "import " ++ t.data) = s2l "import " ++ s.data) :
    t = s := by
  have h2 : (u ++ s2l "import") ++ ' ' :: t.data = s2l "import" ++ ' ' :: s.data := by
    rw [show s2l "import " = s2l "import" ++ [' '] from rfl] at h
    simpa [List.append_assoc] using h
  have := uniq_align_last h2
    (lowerWord_not_mem hlw (by decide)) (lowerWord_not_mem hsw (by decide))
  have hdata : t.data = s.data := this.2
  cases t
  cases s
  exact congrArg String.mk (by simpa using hdata)

/-- The central exclusion: the probe for name `t` does not occur in any
registry line of the shapes the generator produces, except an import line for
`t` itself. -/
theorem needle_not_infix_of_unique_R {t : String} (hne : t.data ≠ [])
    (hlw : ∀ c ∈ t.data, isLowerWordChar c = true)
    {A B : List Char} (hA : 'R' ∉ A) (hB : 'R' ∉ B)
    (h : importNeedle t <:+: A ++ 'R' :: B) :
    ∃ u, A = u ++ (s2l "import " ++ t.data) := by
  rw [importNeedle_decomp] at h
  have hp1 : 'R' ∉ s2l "import " ++ t.data := by
    intro hm
    rcases List.mem_append.1 hm with hm | hm
    · revert hm; decide
    · exact lowerWord_not_mem hlw (by decide) hm
  obtain ⟨u, v, hA2, -⟩ := infix_split_at_unique hp1 (by decide) hA hB h
  exact ⟨u, hA2⟩

theorem needle_not_in_express {t : String} (hne : t.data ≠ [])
    (hlw : ∀ c ∈ t.data, isLowerWordChar c = true) :
    ¬ importNeedle t <:+: expressImportLine := by
  intro h
  rw [show expressImportLine
    = s2l "import \x7b " ++ 'R' :: s2l "outer \x7d from 'express';" from rfl] at h
  obtain ⟨u, hu⟩ := needle_not_infix_of_unique_R hne hlw (by decide) (by decide) h
  exact ne_concat_import_lower hne hlw (c := ' ') (by decide) (by decide) u hu

theorem needle_not_in_const {t : String} (hne : t.data ≠ [])
    (hlw : ∀ c ∈ t.data, isLowerWordChar c = true) :
    ¬ importNeedle t <:+: constRouterLine := by
  intro h
  rw [show constRouterLine = s2l "const router = " ++ 'R' :: s2l "outer();" from rfl] at h
  obtain ⟨u, hu⟩ := needle_not_infix_of_unique_R hne hlw (by decide) (by decide) h
  exact ne_concat_import_lower hne hlw (c := ' ') (by decide) (by decide) u hu

theorem needle_not_in_comment {t : String} (hne : t.data ≠ [])
    (hlw : ∀ c ∈ t.data, isLowerWordChar c = true) :
    ¬ importNeedle t <:+: registerCommentLine := by
  intro h
  rw [show registerCommentLine = s2l "// " ++ 'R' :: s2l "egister routes" from rfl] at h
  obtain ⟨u, hu⟩ := needle_not_infix_of_unique_R hne hlw (by decide) (by decide) h
  exact ne_concat_import_lower hne hlw (c := ' ') (by decide) (by decide) u hu

theorem needle_not_in_export {t : String} :
    ¬ importNeedle t <:+: exportDefaultLine := by
  apply not_infix_of_missing_char (c := 'R')
  · rw [importNeedle_decomp]
    simp
  · decide

theorem needle_not_in_blank {t : String} : ¬ importNeedle t <:+: [] := by
  rw [List.infix_nil, importNeedle_decomp]
  simp

theorem needle_not_in_rebuildImport {t s : String} (hne : t.data ≠ [])
    (hlw : ∀ c ∈ t.data, isLowerWordChar c = true)
    (hsw : ∀ c ∈ s.data, isLowerWordChar c = true) (hts : t ≠ s) :
    ¬ importNeedle t <:+: rebuildImportLine s := by
  intro h
  have hshape : rebuildImportLine s
      = (s2l "import " ++ s.data) ++ 'R'
        :: (s2l "oute from './" ++ s.data ++ s2l ".route';") := by
    unfold rebuildImportLine
    rw [show s2l "Route from './" = 'R' :: s2l "oute from './" from rfl]
    simp [List.append_assoc]
  rw [hshape] at h
  have hA : 'R' ∉ s2l "import " ++ s.data := by
    intro hm
    rcases List.mem_append.1 hm with hm | hm
    · revert hm; decide
    · exact lowerWord_not_mem hsw (by decide) hm
  have hB : 'R' ∉ s2l "oute from './" ++ s.data ++ s2l ".route';" := by
    intro hm
    simp only [List.append_assoc, List.mem_append] at hm
    rcases hm with hm | hm | hm
    · revert hm; decide
    · exact lowerWord_not_mem hsw (by decide) hm
    · revert hm; decide
  obtain ⟨u, hu⟩ := needle_not_infix_of_unique_R hne hlw hA hB h
  exact hts (concat_import_eq_name hlw hsw hu.symm)

theorem needle_not_in_rebuildUse {t s : String} (hne : t.data ≠ [])
    (hlw : ∀ c ∈ t.data, isLowerWordChar c = true)
    (hsw : ∀ c ∈ s.data, isLowerWordChar c = true) :
    ¬ importNeedle t <:+: rebuildUseLine s := by
  intro h
  have hshape : rebuildUseLine s
      = (s2l "router.use('/" ++ s.data ++ s2l "', " ++ s.data) ++ 'R' :: s2l "oute);" := by
    unfold rebuildUseLine
    rw [show s2l "Route);" = 'R' :: s2l "oute);" from rfl]
    try simp [List.append_assoc]
  rw [hshape] at h
  have hA : 'R' ∉ s2l "router.use('/" ++ s.data ++ s2l "', " ++ s.data := by
    intro hm
    simp only [List.append_assoc, List.mem_append] at hm
    rcases hm with hm | hm | hm | hm
    · revert hm; decide
    · exact lowerWord_not_mem hsw (by decide) hm
    · revert hm; decide
    · exact lowerWord_not_mem hsw (by decide) hm
  obtain ⟨u, hu⟩ := needle_not_infix_of_unique_R hne hlw hA (by decide) h
  have h2 : (u ++ s2l "import") ++ ' ' :: t.data
      = (s2l "router.use('/" ++ s.data ++ s2l "',") ++ ' ' :: s.data := by
    rw [show s2l "import " = s2l "import" ++ [' '] from rfl] at hu
    rw [show s2l "', " = s2l "'," ++ [' '] from rfl] at hu
    simpa [List.append_assoc] using hu.symm
  have halign := uniq_align_last h2
    (lowerWord_not_mem hlw (by decide)) (lowerWord_not_mem hsw (by decide))
  have hfirst := halign.1
  have : (u ++ s2l "import").getLast?
      = ((s2l "router.use('/" ++ s.data ++ s2l "',")).getLast? := by rw [hfirst]
  rw [List.getLast?_append, List.getLast?_append, List.getLast?_append] at this
  simp [s2l] at this

theorem containsL_eq_false_of_missing {c : Char} {l pat : List Char}
    (hc : c ∈ pat) (hl : c ∉ l) : containsL l pat = false :=
  (containsL_eq_false_iff _ _).2 (not_infix_of_missing_char hc hl)

theorem trimL_cons_nonEmpty {c : Char} (hc : isWsChar c = false) (r : List Char) :
    (trimL (c :: r)).isEmpty = false := by
  unfold trimL
  rw [dropWhile_head_false hc]
  apply Bool.eq_false_iff.2
  intro hT
  rw [List.isEmpty_iff] at hT
  have h1 : List.dropWhile isWsChar (c :: r).reverse = [] := by
    have := congrArg List.reverse hT
    simpa using this
  have h2 := List.dropWhile_eq_nil_iff.1 h1 c (by simp)
  rw [hc] at h2
  cases h2

theorem joinNl_append {A B : List (List Char)} (hA : A ≠ []) (hB : B ≠ []) :
    joinNl (A ++ B) = joinNl A ++ '\n' :: joinNl B := by
  induction A with
  | nil => exact absurd rfl hA
  | cons l A2 ih =>
    cases A2 with
    | nil =>
      rw [List.singleton_append, joinNl_singleton, joinNl_cons_of_ne_nil hB]
    | cons m A3 =>
      rw [List.cons_append, joinNl_cons_of_ne_nil (by simp),
        joinNl_cons_of_ne_nil (by simp), ih (by simp)]
      simp [List.append_assoc]

/-- Closed form of the registry after incremental inserts of the (lowercase)
names `ts`, used as the fold invariant. -/
def registryLines (ts : List String) : List (List Char) :=
  [expressImportLine] ++ ts.map rebuildImportLine ++ [[]] ++ [constRouterLine] ++ [[]]
    ++ ts.map rebuildUseLine ++ [[]] ++ [exportDefaultLine]

def registryContent (ts : List String) : List Char := joinNl (registryLines ts)

theorem noNl_rebuildImportLine {s : String}
    (hs : ∀ d ∈ s.data, isLowerWordChar d = true) : '\n' ∉ rebuildImportLine s :=
  char_not_mem_rebuildImportLine hs (by decide) (by decide) (by decide) (by decide)

theorem noNl_rebuildUseLine {s : String}
    (hs : ∀ d ∈ s.data, isLowerWordChar d = true) : '\n' ∉ rebuildUseLine s :=
  char_not_mem_rebuildUseLine hs (by decide) (by decide) (by decide) (by decide)

theorem registryLines_noNl {ts : List String}
    (hts : ∀ s ∈ ts, ∀ c ∈ s.data, isLowerWordChar c = true) :
    ∀ l ∈ registryLines ts, '\n' ∉ l := by
  intro l hl
  simp only [registryLines, List.mem_append, List.mem_map, List.mem_singleton] at hl
  rcases hl with ((((((rfl | ⟨s, hs, rfl⟩) | rfl) | rfl) | rfl) | ⟨s, hs, rfl⟩) | rfl) | rfl
  · decide
  · exact noNl_rebuildImportLine (hts s hs)
  · simp
  · decide
  · simp
  · exact noNl_rebuildUseLine (hts s hs)
  · simp
  · decide

theorem importNeedle_noNl {t : String}
    (hlw : ∀ c ∈ t.data, isLowerWordChar c = true) : '\n' ∉ importNeedle t := by
  unfold importNeedle
  intro hm
  simp only [List.mem_append] at hm
  rcases hm with (hm | hm) | hm
  · revert hm; decide
  · exact lowerWord_not_mem hlw (by decide) hm
  · revert hm; decide

theorem importNeedle_ne_nil (t : String) : importNeedle t ≠ [] := by
  rw [importNeedle_decomp]
  simp

theorem needle_not_in_registryContent {ts : List String} {t : String}
    (hts : ∀ s ∈ ts, s.data ≠ [] ∧ ∀ c ∈ s.data, isLowerWordChar c = true)
    (htne : t.data ≠ []) (htlw : ∀ c ∈ t.data, isLowerWordChar c = true)
    (hnot : t ∉ ts) :
    containsL (registryContent ts) (importNeedle t) = false := by
  rw [containsL_eq_false_iff]
  intro h
  have := (infix_joinNl_iff (importNeedle_noNl htlw) (importNeedle_ne_nil t)).1 h
  obtain ⟨l, hl, hinf⟩ := this
  simp only [registryLines, List.mem_append, List.mem_map, List.mem_singleton] at hl
  rcases hl with ((((((rfl | ⟨s, hs, rfl⟩) | rfl) | rfl) | rfl) | ⟨s, hs, rfl⟩) | rfl) | rfl
  · exact needle_not_in_express htne htlw hinf
  · exact needle_not_in_rebuildImport htne htlw (hts s hs).2
      (fun he => hnot (he ▸ hs)) hinf
  · exact needle_not_in_blank hinf
  · exact needle_not_in_const htne htlw hinf
  · exact needle_not_in_blank hinf
  · exact needle_not_in_rebuildUse htne htlw (hts s hs).2 hinf
  · exact needle_not_in_blank hinf
  · exact needle_not_in_export hinf

theorem rebuildImportLine_head (s : String) :
    rebuildImportLine s
      = 'i' :: (s2l "mport " ++ s.data ++ s2l "Route from './" ++ s.data
          ++ s2l ".route';") := rfl

theorem rebuildUseLine_head (s : String) :
    rebuildUseLine s
      = 'r' :: (s2l "outer.use('/" ++ s.data ++ s2l "', " ++ s.data
          ++ s2l "Route);") := rfl

theorem rebuildImportLine_no_hit {s : String}
    (hs : ∀ d ∈ s.data, isLowerWordChar d = true) :
    containsL (rebuildImportLine s) (s2l "const router = Router()") = false :=
  containsL_eq_false_of_missing (c := '=') (by decide)
    (char_not_mem_rebuildImportLine hs (by decide) (by decide) (by decide) (by decide))

theorem rebuildUseLine_no_hit {s : String}
    (hs : ∀ d ∈ s.data, isLowerWordChar d = true) :
    containsL (rebuildUseLine s) (s2l "const router = Router()") = false :=
  containsL_eq_false_of_missing (c := '=') (by decide)
    (char_not_mem_rebuildUseLine hs (by decide) (by decide) (by decide) (by decide))

theorem classify_use_block (ts : List String) (rest : List (List Char))
    (hts : ∀ s ∈ ts, ∀ c ∈ s.data, isLowerWordChar c = true) :
    classifyLines (ts.map rebuildUseLine ++ rest) false true
      = ((classifyLines rest false true).1,
        ts.map rebuildUseLine ++ (classifyLines rest false true).2.1,
        (classifyLines rest false true).2.2) := by
  induction ts with
  | nil => simp
  | cons s ts2 ih =>
    have hsw : ∀ c ∈ s.data, isLowerWordChar c = true :=
      hts s (List.mem_cons_self _ _)
    have hts2 : ∀ x ∈ ts2, ∀ c ∈ x.data, isLowerWordChar c = true :=
      fun x hx => hts x (List.mem_cons_of_mem s hx)
    have hhit := rebuildUseLine_no_hit hsw
    have hb : (trimL (rebuildUseLine s)).isEmpty = false := by
      rw [rebuildUseLine_head]; exact trimL_cons_nonEmpty (by decide) _
    have h1 : ((!containsL (rebuildUseLine s) (s2l "const router = Router()") && false)
        && (s2l "import").isPrefixOf (rebuildUseLine s)) = false := by
      simp
    have h2 : ((containsL (rebuildUseLine s) (s2l "const router = Router()") || true)
        && containsL (rebuildUseLine s) (s2l "router.use(")) = true := by
      rw [rebuildUseLine_contains]; simp
    rw [List.map_cons, List.cons_append, classifyLines_use _ _ _ hb h1 h2]
    rw [show (!containsL (rebuildUseLine s) (s2l "const router = Router()") && false)
        = false from by simp,
      show (containsL (rebuildUseLine s) (s2l "const router = Router()") || true)
        = true from by simp]
    rw [ih hts2]
    simp

theorem classify_tail_part (ts : List String)
    (hts : ∀ s ∈ ts, ∀ c ∈ s.data, isLowerWordChar c = true) :
    classifyLines ([[], constRouterLine, []]
        ++ (ts.map rebuildUseLine ++ [[], exportDefaultLine])) true false
      = ([], ts.map rebuildUseLine, [constRouterLine, exportDefaultLine]) := by
  rw [show ([[], constRouterLine, []]
        ++ (ts.map rebuildUseLine ++ [[], exportDefaultLine]))
      = [] :: constRouterLine :: [] :: (ts.map rebuildUseLine
          ++ [[], exportDefaultLine]) from by simp]
  rw [classifyLines_blank _ true false (by decide)]
  rw [classifyLines_other _ true false (by decide) (by decide) (by decide)]
  rw [show (!containsL constRouterLine (s2l "const router = Router()") && true)
      = false from by decide,
    show (containsL constRouterLine (s2l "const router = Router()") || false)
      = true from by decide]
  rw [classifyLines_blank _ false true (by decide)]
  rw [classify_use_block ts _ hts]
  rw [show classifyLines [[], exportDefaultLine] false true
      = ([], [], [exportDefaultLine]) from by decide]
  simp

theorem classify_import_block (ts : List String) (rest : List (List Char))
    (hts : ∀ s ∈ ts, ∀ c ∈ s.data, isLowerWordChar c = true) :
    classifyLines (ts.map rebuildImportLine ++ rest) true false
      = (ts.map rebuildImportLine ++ (classifyLines rest true false).1,
        (classifyLines rest true false).2.1,
        (classifyLines rest true false).2.2) := by
  induction ts with
  | nil => simp
  | cons s ts2 ih =>
    have hsw : ∀ c ∈ s.data, isLowerWordChar c = true :=
      hts s (List.mem_cons_self _ _)
    have hts2 : ∀ x ∈ ts2, ∀ c ∈ x.data, isLowerWordChar c = true :=
      fun x hx => hts x (List.mem_cons_of_mem s hx)
    have hhit := rebuildImportLine_no_hit hsw
    have hb : (trimL (rebuildImportLine s)).isEmpty = false := by
      rw [rebuildImportLine_head]; exact trimL_cons_nonEmpty (by decide) _
    have h1 : ((!containsL (rebuildImportLine s) (s2l "const router = Router()") && true)
        && (s2l "import").isPrefixOf (rebuildImportLine s)) = true := by
      rw [hhit, rebuildImportLine_starts]; rfl
    rw [List.map_cons, List.cons_append, classifyLines_import _ _ _ hb h1]
    rw [show (!containsL (rebuildImportLine s) (s2l "const router = Router()") && true)
        = true from by rw [hhit]; rfl,
      show (containsL (rebuildImportLine s) (s2l "const router = Router()") || false)
        = false from by rw [hhit]; rfl]
    rw [ih hts2]
    simp

theorem classify_registryLines (ts : List String)
    (hts : ∀ s ∈ ts, ∀ c ∈ s.data, isLowerWordChar c = true) :
    classifyLines (registryLines ts) true false
      = (expressImportLine :: ts.map rebuildImportLine, ts.map rebuildUseLine,
        [constRouterLine, exportDefaultLine]) := by
  have hstruct : registryLines ts
      = expressImportLine :: (ts.map rebuildImportLine
          ++ ([[], constRouterLine, []]
            ++ (ts.map rebuildUseLine ++ [[], exportDefaultLine]))) := by
    simp [registryLines]
  rw [hstruct, classifyLines_import _ _ _ (by decide) (by decide)]
  rw [show (!containsL expressImportLine (s2l "const router = Router()") && true)
      = true from by decide,
    show (containsL expressImportLine (s2l "const router = Router()") || false)
      = false from by decide]
  rw [classify_import_block ts _ hts, classify_tail_part ts hts]
  simp

theorem toLower_preserves {s : String}
    (h : ∀ c ∈ s.data, isLowerWordChar c = true) :
    newImportLine s = rebuildImportLine s ∧ newRouteLine s = rebuildUseLine s := by
  unfold newImportLine rebuildImportLine newRouteLine rebuildUseLine
  rw [toLowerStr_of_lower h]
  exact ⟨by simp [List.append_assoc], by simp [List.append_assoc]⟩

theorem insert_on_registryContent {ts : List String} {t : String}
    (hts : ∀ s ∈ ts, s.data ≠ [] ∧ ∀ c ∈ s.data, isLowerWordChar c = true)
    (htne : t.data ≠ []) (htlw : ∀ c ∈ t.data, isLowerWordChar c = true)
    (hnot : t ∉ ts) :
    updateRouteIndex (some (registryContent ts)) t
      = (registryContent (ts ++ [t]), true) := by
  have hmiss := needle_not_in_registryContent hts htne htlw hnot
  have hsplit : splitNl (registryContent ts) = registryLines ts :=
    splitNl_joinNl (by simp [registryLines]) (registryLines_noNl (fun s hs => (hts s hs).2))
  have hcl := classify_registryLines ts (fun s hs => (hts s hs).2)
  have hlow := toLower_preserves htlw
  unfold updateRouteIndex
  simp only [Option.getD_some, hmiss, Bool.false_eq_true, if_false, hsplit, hcl,
    hlow.1, hlow.2]
  rw [show List.filter (fun l => containsL l (s2l "export default"))
      [constRouterLine, exportDefaultLine] = [exportDefaultLine] from by decide]
  unfold registryContent registryLines
  simp [List.append_assoc]

theorem needle_not_in_default {t : String} (htne : t.data ≠ [])
    (htlw : ∀ c ∈ t.data, isLowerWordChar c = true) :
    containsL defaultIndexContent (importNeedle t) = false := by
  rw [containsL_eq_false_iff]
  intro h
  have hdec : defaultIndexContent
      = joinNl [expressImportLine, [], constRouterLine, [], exportDefaultLine, []] := by
    decide
  rw [hdec] at h
  have := (infix_joinNl_iff (importNeedle_noNl htlw) (importNeedle_ne_nil t)).1 h
  obtain ⟨l, hl, hinf⟩ := this
  simp only [List.mem_cons, List.not_mem_nil, or_false] at hl
  rcases hl with rfl | rfl | rfl | rfl | rfl | rfl
  · exact needle_not_in_express htne htlw hinf
  · exact needle_not_in_blank hinf
  · exact needle_not_in_const htne htlw hinf
  · exact needle_not_in_blank hinf
  · exact needle_not_in_export hinf
  · exact needle_not_in_blank hinf

theorem insert_on_default {t : String} (htne : t.data ≠ [])
    (htlw : ∀ c ∈ t.data, isLowerWordChar c = true) :
    updateRouteIndex (some defaultIndexContent) t = (registryContent [t], true) := by
  have hmiss := needle_not_in_default htne htlw
  have hlow := toLower_preserves htlw
  unfold updateRouteIndex
  simp only [Option.getD_some, hmiss, Bool.false_eq_true, if_false, hlow.1, hlow.2]
  rw [show splitNl defaultIndexContent
      = [expressImportLine, [], constRouterLine, [], exportDefaultLine, []] from by decide]
  rw [show classifyLines [expressImportLine, [], constRouterLine, [],
        exportDefaultLine, []] true false
      = ([expressImportLine], [], [constRouterLine, exportDefaultLine]) from by decide]
  rw [show List.filter (fun l => containsL l (s2l "export default"))
      [constRouterLine, exportDefaultLine] = [exportDefaultLine] from by decide]
  unfold registryContent registryLines
  simp [List.append_assoc]

theorem registry_fold (ts : List String) (acc : List String)
    (hnd : (acc ++ ts).Nodup)
    (hall : ∀ n ∈ acc ++ ts, n.data ≠ [] ∧ ∀ c ∈ n.data, isLowerWordChar c = true) :
    List.foldl (fun c t => (updateRouteIndex (some c) t).1) (registryContent acc) ts
      = registryContent (acc ++ ts) := by
  induction ts generalizing acc with
  | nil => simp
  | cons t ts2 ih =>
    have hnotacc : t ∉ acc := by
      rcases List.nodup_append.1 hnd with ⟨_, _, hdisj⟩
      intro hmem
      exact hdisj hmem (List.mem_cons_self _ _)
    have hstep : (updateRouteIndex (some (registryContent acc)) t).1
        = registryContent (acc ++ [t]) := by
      rw [insert_on_registryContent
        (fun s hs => hall s (List.mem_append_left _ hs))
        (hall t (List.mem_append_right _ (List.mem_cons_self _ _))).1
        (hall t (List.mem_append_right _ (List.mem_cons_self _ _))).2 hnotacc]
    have hperm : (acc ++ [t]) ++ ts2 = acc ++ t :: ts2 := by
      simp
    rw [List.foldl_cons, hstep,
      ih (acc ++ [t]) (by rw [hperm]; exact hnd) (by rw [hperm]; exact hall), hperm]

theorem lower_ne_quote {c : Char} (hc : isLowerWordChar c = true) :
    c ≠ '\'' := by
  intro h
  rw [h] at hc
  exact absurd hc (by decide)

theorem extractMountPath_rebuildUse {s : String}
    (hs : ∀ c ∈ s.data, isLowerWordChar c = true) :
    extractMountPath (rebuildUseLine s) = '/' :: s.data := by
  unfold extractMountPath rebuildUseLine
  have hshape : s2l "router.use('/" ++ s.data ++ s2l "', " ++ s.data ++ s2l "Route);"
      = s2l "router.use("
        ++ '\'' :: (('/' :: s.data) ++ '\'' :: (s2l ", " ++ s.data ++ s2l "Route);")) := by
    rw [show s2l "router.use('/" = s2l "router.use(" ++ ['\'', '/'] from rfl,
      show s2l "', " = ['\''] ++ s2l ", " from rfl]
    simp [List.append_assoc]
  rw [hshape]
  rw [dropWhile_all_append (by decide), dropWhile_head_false (by decide)]
  simp only [List.drop_succ_cons, List.drop_zero]
  rw [takeWhile_all_append ?hall, takeWhile_head_false (by decide)]
  · simp
  case hall =>
    intro c hc
    rcases List.mem_cons.1 hc with rfl | hc
    · decide
    · simpa using lower_ne_quote (hs c hc)

theorem filter_map_none {α β : Type} (p : β → Bool) (f : α → β) (l : List α)
    (h : ∀ a ∈ l, p (f a) = false) : (l.map f).filter p = [] := by
  induction l with
  | nil => simp
  | cons a l2 ih =>
    simp [List.filter_cons, h a (List.mem_cons_self _ _),
      ih (fun x hx => h x (List.mem_cons_of_mem a hx))]

theorem filter_map_all {α β : Type} (p : β → Bool) (f : α → β) (l : List α)
    (h : ∀ a ∈ l, p (f a) = true) : (l.map f).filter p = l.map f := by
  induction l with
  | nil => simp
  | cons a l2 ih =>
    simp [List.filter_cons, h a (List.mem_cons_self _ _),
      ih (fun x hx => h x (List.mem_cons_of_mem a hx))]

theorem rebuildImportLine_no_use {s : String}
    (hs : ∀ d ∈ s.data, isLowerWordChar d = true) :
    containsL (rebuildImportLine s) (s2l "router.use(") = false :=
  containsL_eq_false_of_missing (c := '(') (by decide)
    (char_not_mem_rebuildImportLine hs (by decide) (by decide) (by decide) (by decide))

theorem mountPaths_registryContent {ts : List String}
    (hts : ∀ s ∈ ts, s.data ≠ [] ∧ ∀ c ∈ s.data, isLowerWordChar c = true) :
    mountPaths (registryContent ts) = ts.map (fun s => '/' :: s.data) := by
  unfold mountPaths
  rw [show splitNl (registryContent ts) = registryLines ts from
    splitNl_joinNl (by simp [registryLines])
      (registryLines_noNl (fun s hs => (hts s hs).2))]
  unfold registryLines
  simp only [List.filter_append]
  rw [show List.filter (fun l => containsL l (s2l "router.use(")) [expressImportLine]
      = [] from by decide,
    show List.filter (fun l => containsL l (s2l "router.use(")) [([] : List Char)]
      = [] from by decide,
    show List.filter (fun l => containsL l (s2l "router.use(")) [constRouterLine]
      = [] from by decide,
    show List.filter (fun l => containsL l (s2l "router.use(")) [exportDefaultLine]
      = [] from by decide,
    filter_map_none (fun l => containsL l (s2l "router.use(")) rebuildImportLine ts
      (fun s hs => rebuildImportLine_no_use (hts s hs).2),
    filter_map_all (fun l => containsL l (s2l "router.use(")) rebuildUseLine ts
      (fun s hs => rebuildUseLine_contains s)]
  simp only [List.append_nil, List.nil_append, List.map_map]
  exact List.map_congr_left (fun s hs => extractMountPath_rebuildUse (hts s hs).2)

theorem rebuildFromStems_lines (ns : List String) (hne : ns ≠ [])
    (hlw : ∀ s ∈ ns, ∀ c ∈ s.data, isLowerWordChar c = true) :
    splitNl (rebuildFromStems ns)
      = [[], expressImportLine] ++ ns.map rebuildImportLine
        ++ [[], constRouterLine, [], registerCommentLine] ++ ns.map rebuildUseLine
        ++ [[], exportDefaultLine, []] := by
  have h2 : ns.map rebuildImportLine ≠ [] := by simpa using hne
  have h4 : ns.map rebuildUseLine ≠ [] := by simpa using hne
  have hjoin : rebuildFromStems ns
      = joinNl ([[], expressImportLine] ++ ns.map rebuildImportLine
          ++ [[], constRouterLine, [], registerCommentLine] ++ ns.map rebuildUseLine
          ++ [[], exportDefaultLine, []]) := by
    rw [joinNl_append (by simp) (by simp),
      joinNl_append (by simp) h4,
      joinNl_append (by simp) (by simp),
      joinNl_append (by simp) h2]
    rw [show joinNl [[], expressImportLine] = '\n' :: expressImportLine from rfl,
      show joinNl [[], constRouterLine, [], registerCommentLine]
        = '\n' :: (constRouterLine ++ '\n' :: '\n' :: registerCommentLine) from rfl,
      show joinNl [[], exportDefaultLine, []]
        = '\n' :: (exportDefaultLine ++ ['\n']) from rfl]
    unfold rebuildFromStems
    rw [show s2l "\n" = ['\n'] from rfl, show s2l "\n\n" = ['\n', '\n'] from rfl]
    simp [List.append_assoc]
  rw [hjoin]
  apply splitNl_joinNl (by simp)
  intro l hl
  simp only [List.append_assoc] at hl
  rcases List.mem_append.1 hl with h | hl
  · simp only [List.mem_cons, List.not_mem_nil, or_false] at h
    rcases h with rfl | rfl
    · simp
    · decide
  rcases List.mem_append.1 hl with h | hl
  · obtain ⟨s, hs, rfl⟩ := List.mem_map.1 h
    exact noNl_rebuildImportLine (hlw s hs)
  rcases List.mem_append.1 hl with h | hl
  · simp only [List.mem_cons, List.not_mem_nil, or_false] at h
    rcases h with rfl | rfl | rfl | rfl
    · simp
    · decide
    · simp
    · decide
  rcases List.mem_append.1 hl with h | h
  · obtain ⟨s, hs, rfl⟩ := List.mem_map.1 h
    exact noNl_rebuildUseLine (hlw s hs)
  · simp only [List.mem_cons, List.not_mem_nil, or_false] at h
    rcases h with rfl | rfl | rfl
    · simp
    · decide
    · simp

theorem mountPaths_rebuildFromStems (ns : List String)
    (hlw : ∀ s ∈ ns, ∀ c ∈ s.data, isLowerWordChar c = true) :
    mountPaths (rebuildFromStems ns) = ns.map (fun s => '/' :: s.data) := by
  cases hns : ns with
  | nil => decide
  | cons n ns2 =>
    rw [← hns]
    have hne : ns ≠ [] := by rw [hns]; simp
    unfold mountPaths
    rw [rebuildFromStems_lines ns hne hlw]
    simp only [List.filter_append]
    rw [show List.filter (fun l => containsL l (s2l "router.use("))
        [[], expressImportLine] = [] from by decide,
      show List.filter (fun l => containsL l (s2l "router.use("))
        [[], constRouterLine, [], registerCommentLine] = [] from by decide,
      show List.filter (fun l => containsL l (s2l "router.use("))
        [[], exportDefaultLine, []] = [] from by decide,
      filter_map_none (fun l => containsL l (s2l "router.use(")) rebuildImportLine ns
        (fun s hs => rebuildImportLine_no_use (hlw s hs)),
      filter_map_all (fun l => containsL l (s2l "router.use(")) rebuildUseLine ns
        (fun s hs => rebuildUseLine_contains s)]
    simp only [List.append_nil, List.nil_append, List.map_map]
    exact List.map_congr_left (fun s hs => extractMountPath_rebuildUse (hlw s hs))

theorem rebuild_shape (ns : List String) :
    rebuildFromStems ns
      = (s2l "\n" ++ expressImportLine ++ s2l "\n")
        ++ joinNl (ns.map rebuildImportLine)
        ++ (s2l "\n\n" ++ constRouterLine ++ s2l "\n\n" ++ registerCommentLine
          ++ s2l "\n" ++ joinNl (ns.map rebuildUseLine) ++ s2l "\n\n"
          ++ exportDefaultLine ++ s2l "\n") := by
  unfold rebuildFromStems
  simp [List.append_assoc]

theorem insert_noop_on_rebuild {ns : List String} {t : String} (ht : t ∈ ns) :
    updateRouteIndex (some (rebuildFromStems ns)) t = (rebuildFromStems ns, false) := by
  have hpref : importNeedle t <+: rebuildImportLine t := by
    rw [rebuildImportLine_decomp]
    exact List.prefix_append _ _
  have hinf : importNeedle t <:+: rebuildFromStems ns := by
    rw [rebuild_shape]
    exact (hpref.isInfix.trans
      (mem_infix_joinNl (List.mem_map_of_mem rebuildImportLine ht))).trans
      (List.infix_append _ _ _)
  have hc : containsL (rebuildFromStems ns) (importNeedle t) = true :=
    (containsL_iff _ _).2 hinf
  simp [updateRouteIndex, hc]

theorem string_data_inj {a b : String} (h : a.data = b.data) : a = b := by
  cases a
  cases b
  exact congrArg String.mk h

theorem slash_map_nodup {ts : List String} (hts : ts.Nodup) :
    (ts.map (fun s => '/' :: s.data)).Nodup := by
  refine hts.map ?_
  intro a b h
  exact string_data_inj (List.cons_injective h)

/-- C2 counterexample: rebuilding the registry from the single route file
`post.route.ts` and then incrementally inserting the model name `Post`
(the casing `generate` actually passes) duplicates the `/post` mount:
the insert probes for `import PostRoute` while the rebuilt file says
`import postRoute`, so the guard misses and a second `/post` mount line is
appended. -/
theorem C2_counterexample :
    mountPaths (applyRegistryOps ["post.route.ts"]
        (generateRouteIndexFile ["post.route.ts"]) [RegistryOp.addRoute "Post"])
      = [s2l "/post", s2l "/post"]
    ∧ ¬ (mountPaths (applyRegistryOps ["post.route.ts"]
        (generateRouteIndexFile ["post.route.ts"])
        [RegistryOp.addRoute "Post"])).Nodup := by
  constructor
  · decide
  · decide

/-- C2 (amended): over lowercase model names the two registry code paths do
converge.  (a) A wholesale rebuild mounts exactly `'/' ++ stem` for each
`.route.ts` file, in listing order; (b) those mounts are duplicate-free
whenever the stems are; (c)–(d) a sequence of incremental inserts of distinct
nonempty lowercase names starting from the default registry produces the
closed-form registry whose mounts are exactly `'/' ++ name`, duplicate-free;
(e) after a rebuild, re-inserting any present stem is a no-op, so the two
paths agree on the mount-path set.  (The original claim fails for non-lowercase
insert names: see the counterexample.) -/
theorem C2_amended_registry_convergence (files : List String) (ts : List String)
    (hts : ts.Nodup)
    (hall : ∀ n ∈ ts, n.data ≠ [] ∧ ∀ c ∈ n.data, isLowerWordChar c = true)
    (hstems : ∀ s ∈ routeStems files, ∀ c ∈ s.data, isLowerWordChar c = true) :
    mountPaths (generateRouteIndexFile files)
      = (routeStems files).map (fun s => '/' :: s.data)
    ∧ ((routeStems files).Nodup → (mountPaths (generateRouteIndexFile files)).Nodup)
    ∧ (ts ≠ [] →
        applyRegistryOps files defaultIndexContent (ts.map RegistryOp.addRoute)
          = registryContent ts)
    ∧ (ts ≠ [] →
        mountPaths (applyRegistryOps files defaultIndexContent
            (ts.map RegistryOp.addRoute))
          = ts.map (fun s => '/' :: s.data)
        ∧ (mountPaths (applyRegistryOps files defaultIndexContent
            (ts.map RegistryOp.addRoute))).Nodup)
    ∧ (∀ t ∈ routeStems files,
        applyRegistryOps files (generateRouteIndexFile files)
            [RegistryOp.addRoute t]
          = generateRouteIndexFile files) := by
  have ha : mountPaths (generateRouteIndexFile files)
      = (routeStems files).map (fun s => '/' :: s.data) :=
    mountPaths_rebuildFromStems (routeStems files) hstems
  have hfold : applyRegistryOps files defaultIndexContent (ts.map RegistryOp.addRoute)
      = List.foldl (fun c t => (updateRouteIndex (some c) t).1) defaultIndexContent ts := by
    unfold applyRegistryOps
    rw [List.foldl_map]
    rfl
  have hc : ts ≠ [] →
      applyRegistryOps files defaultIndexContent (ts.map RegistryOp.addRoute)
        = registryContent ts := by
    intro hne
    rw [hfold]
    cases ts with
    | nil => exact absurd rfl hne
    | cons t0 ts2 =>
      rw [List.foldl_cons,
        show (updateRouteIndex (some defaultIndexContent) t0).1
            = registryContent [t0] from by
          rw [insert_on_default (hall t0 (List.mem_cons_self _ _)).1
            (hall t0 (List.mem_cons_self _ _)).2],
        registry_fold ts2 [t0] hts hall]
      rfl
  refine ⟨ha, ?_, hc, ?_, ?_⟩
  · intro hnd
    rw [ha]
    exact slash_map_nodup hnd
  · intro hne
    rw [hc hne, mountPaths_registryContent hall]
    exact ⟨rfl, slash_map_nodup hts⟩
  · intro t ht
    show applyRegistryOp files (generateRouteIndexFile files) (.addRoute t)
      = generateRouteIndexFile files
    show (updateRouteIndex (some (generateRouteIndexFile files)) t).1
      = generateRouteIndexFile files
    unfold generateRouteIndexFile
    rw [insert_noop_on_rebuild ht]

theorem C2_amended_witness :
    mountPaths (applyRegistryOps ["user.route.ts", "post.route.ts"]
        defaultIndexContent (["user", "post"].map RegistryOp.addRoute))
      = [s2l "/user", s2l "/post"]
    ∧ mountPaths (generateRouteIndexFile ["user.route.ts", "post.route.ts"])
      = [s2l "/user", s2l "/post"]
    ∧ applyRegistryOps ["user.route.ts", "post.route.ts"]
        (generateRouteIndexFile ["user.route.ts", "post.route.ts"])
        [RegistryOp.addRoute "user"]
      = generateRouteIndexFile ["user.route.ts", "post.route.ts"] := by
  have h := C2_amended_registry_convergence ["user.route.ts", "post.route.ts"]
    ["user", "post"] (by decide) (by decide) (by decide)
  refine ⟨?_, ?_, ?_⟩
  · rw [(h.2.2.2.1 (by decide)).1]
    decide
  · rw [h.1]
    decide
  · exact h.2.2.2.2 "user" (by decide)
